import Mathlib

/-!
Verification of the PostgreSQL schema reconciliation layer (skydb/pq/schema.go).

The Go source is shallowly embedded: pure helpers become Lean functions, and the
stateful database operations become explicit state-passing functions over a
`DBState` holding the modelled catalog (`PhysicalDB`), the per-connection Schema
Cache (`db.c.RecordSchema`), and the trace of statements handed to `Exec`.
The database engine itself is external to the repository; its catalog surface
and DDL semantics are modelled from the specification, and every such modelled
definition carries a doc comment saying so.  Query and execution failures of the
external engine are injected through a `Faults` record.
-/

set_option maxHeartbeats 1000000

set_option maxRecDepth 10000

deriving instance DecidableEq for Except

/-- Association-list lookup keyed by strings, mirroring a Go map read. -/
def alistLookup {α : Type} : List (String × α) → String → Option α
  | [], _ => none
  | (k, v) :: rest, key => if k == key then some v else alistLookup rest key

/-- Association-list insert with Go map semantics: overwrite an existing binding in place, otherwise append at the end. -/
def alistInsert {α : Type} : List (String × α) → String → α → List (String × α)
  | [], k, v => [(k, v)]
  | (k', v') :: rest, k, v =>
    if k' == k then (k', v) :: rest else (k', v') :: alistInsert rest k v

/-- Association-list delete, mirroring Go `delete(m, k)`. -/
def alistErase {α : Type} : List (String × α) → String → List (String × α)
  | [], _ => []
  | (k', v') :: rest, k =>
    if k' == k then alistErase rest k else (k', v') :: alistErase rest k

/-- Boolean prefix test on character lists. -/
def listHasPre : List Char → List Char → Bool
  | [], _ => true
  | _ :: _, [] => false
  | a :: as, b :: bs => a == b && listHasPre as bs

/-- Boolean suffix test on character lists. -/
def listHasSuf (suf s : List Char) : Bool := listHasPre suf.reverse s.reverse

/-- Go strings.TrimPrefix: drop `pre` when it heads `s`, otherwise return `s` unchanged. -/
def goTrimHead (s pre : String) : String :=
  if listHasPre pre.data s.data then ⟨s.data.drop pre.data.length⟩ else s

/-- Go strings.TrimSuffix: drop `suf` when it ends `s`, otherwise return `s` unchanged. -/
def goTrimTail (s suf : String) : String :=
  if listHasSuf suf.data s.data then ⟨s.data.take (s.data.length - suf.data.length)⟩ else s

/-- Semantic field types of the record store (skydb.DataType). -/
inductive DataType
  | string
  | number
  | boolean
  | json
  | acl
  | dateTime
  | location
  | sequence
  | integer
  | asset
  | reference
  deriving DecidableEq

/-- skydb.FieldType: a semantic type tag plus the referenced record type for references; the Go zero value of ReferenceType is the empty string. -/
structure FieldType where
  type : DataType
  referenceType : String := ""
  deriving DecidableEq

/-- skydb.RecordSchema: field name to FieldType, as an association list standing in for the Go map. -/
abbrev RecordSchema := List (String × FieldType)

/-- Modelled from the spec: native column type names used by the type mapper; these constants live in the repository's builder file, outside src/. -/
def TypeString : String := "text"

/-- Modelled from the spec: native type name for Number. -/
def TypeNumber : String := "double precision"

/-- Modelled from the spec: native type name for Boolean. -/
def TypeBoolean : String := "boolean"

/-- Modelled from the spec: native type name for JSON and ACL columns. -/
def TypeJSON : String := "jsonb"

/-- Modelled from the spec: native type name for DateTime columns. -/
def TypeTimestamp : String := "timestamp without time zone"

/-- Modelled from the spec: native type name for Location columns. -/
def TypeLocation : String := "geometry(Point)"

/-- Modelled from the spec: native type name for Integer columns as reported by the catalog. -/
def TypeInteger : String := "integer"

/-- Modelled from the spec: DDL fragment creating a sequence-backed integer column. -/
def TypeSerial : String := "serial"

/-- Helper for the external lib/pq QuoteIdentifier: double every interior quote character. -/
def escQuotes : List Char → List Char
  | [] => []
  | c :: cs => if c == '"' then '"' :: '"' :: escQuotes cs else c :: escQuotes cs

/-- Modelled after the external lib/pq QuoteIdentifier: wrap in double quotes, doubling interior quotes. -/
def quoteIdentifier (name : String) : String := ⟨'"' :: (escQuotes name.data ++ ['"'])⟩

/-- Modelled from the spec: the application schema namespacing every record-type table. -/
def schemaName : String := "app__"

/-- Modelled from the spec: db.tableName qualifies the quoted record-type name with the schema (the record type maps 1:1 to one namespaced table). -/
def tableName (recordType : String) : String := schemaName ++ "." ++ quoteIdentifier recordType

/-- Modelled from the spec: the inverse type mapping (semantic FieldType to native DDL type) used when emitting ADD COLUMN clauses; Asset and Reference columns are physically text, Sequence columns are created serial. -/
def pqDataType : DataType → String
  | .string => TypeString
  | .asset => TypeString
  | .reference => TypeString
  | .number => TypeNumber
  | .dateTime => TypeTimestamp
  | .boolean => TypeBoolean
  | .json => TypeJSON
  | .acl => TypeJSON
  | .location => TypeLocation
  | .sequence => TypeSerial
  | .integer => TypeInteger

/-- Modelled from the spec: the catalog-visible native type of a created column; a serial column is catalogued as integer backed by an owned sequence. -/
def physColType (t : DataType) : String :=
  if t = .sequence then TypeInteger else pqDataType t

/-- Errors surfaced by the embedded operations: structured stand-ins for the Go error values built with fmt.Errorf. -/
inductive PQError
  | queryFault (which : String)
  | unknownDataType (pqType columnName : String)
  | execFailed (stmt : String)
  | duplicateTable (name : String)
  | undefinedTable (name : String)
  | duplicateColumn (table column : String)
  | undefinedColumn (table column : String)
  | createTableFailed (e : PQError)
  | alterTableFailed (e : PQError)
  | conflictingSchema (remote desired : FieldType)
  deriving DecidableEq

/-- Modelled from the spec: one physical table of the catalog — columns with native type names, and foreign keys as (local column, referenced table) pairs. -/
structure Table where
  columns : List (String × String)
  fks : List (String × String)
  deriving DecidableEq

/-- Modelled from the spec: the catalog surface of one application schema — tables by name plus sequence object names. -/
structure PhysicalDB where
  tables : List (String × Table)
  seqs : List String
  deriving DecidableEq

/-- Fault injection for the four catalog queries and for statement execution; a true flag makes the corresponding external call fail. -/
structure Faults where
  oidFail : Bool
  colFail : Bool
  seqFail : Bool
  fkFail : Bool
  execFail : Bool
  deriving DecidableEq

/-- The fault-free environment. -/
def noFaults : Faults := ⟨false, false, false, false, false⟩

/-- State threaded through the operations: the physical catalog, the per-connection Schema Cache (db.c.RecordSchema) and the trace of statement texts passed to Exec. -/
structure DBState where
  phys : PhysicalDB
  cache : List (String × RecordSchema)
  trace : List String
  deriving DecidableEq

/-- Structured counterparts of the DDL statements the code executes, used by the modelled engine. -/
inductive DDL
  | createTable (recordType : String)
  | createTrigger (recordType : String)
  | addColumns (recordType : String) (cols : RecordSchema)
  | renameColumn (recordType oldName newName : String)
  | dropColumn (recordType column : String)

/-- Reserved system columns laid down by createTableStmt (source lines 148-163). -/
def reservedColumns : List (String × String) :=
  [("_id", "text"), ("_database_id", "text"), ("_owner_id", "text"), ("_access", "jsonb"),
   ("_created_at", "timestamp without time zone"), ("_created_by", "text"),
   ("_updated_at", "timestamp without time zone"), ("_updated_by", "text")]

/-- Modelled from the spec: engine execution of a single ADD COLUMN — a duplicate column is rejected, a serial column creates its owned sequence, asset and reference columns require the referenced table to exist and record a foreign key. -/
def addOneCol (recordType col : String) (ft : FieldType) (tables : List (String × Table))
    (tbl : Table) (seqNames : List String) : Except PQError (Table × List String) :=
  if (alistLookup tbl.columns col).isSome then .error (.duplicateColumn recordType col)
  else
    let tbl' : Table := { tbl with columns := tbl.columns ++ [(col, physColType ft.type)] }
    match ft.type with
    | .sequence => .ok (tbl', seqNames ++ [recordType ++ "_" ++ col ++ "_seq"])
    | .asset =>
      if (alistLookup tables "_asset").isSome then
        .ok ({ tbl' with fks := tbl'.fks ++ [(col, "_asset")] }, seqNames)
      else .error (.undefinedTable "_asset")
    | .reference =>
      if (alistLookup tables ft.referenceType).isSome then
        .ok ({ tbl' with fks := tbl'.fks ++ [(col, ft.referenceType)] }, seqNames)
      else .error (.undefinedTable ft.referenceType)
    | _ => .ok (tbl', seqNames)

/-- Modelled from the spec: engine execution of the column additions of one ALTER TABLE, column by column. -/
def addColsLoop (recordType : String) (tables : List (String × Table)) :
    Table → List String → RecordSchema → Except PQError (Table × List String)
  | tbl, seqNames, [] => .ok (tbl, seqNames)
  | tbl, seqNames, (col, ft) :: rest =>
    match addOneCol recordType col ft tables tbl seqNames with
    | .error e => .error e
    | .ok (tbl2, seqNames2) => addColsLoop recordType tables tbl2 seqNames2 rest

/-- Modelled from the spec: the engine's semantics for each DDL statement; every statement is applied atomically or rejected with an error. -/
def execDDL (phys : PhysicalDB) : DDL → Except PQError PhysicalDB
  | .createTable rt =>
    if (alistLookup phys.tables rt).isSome then .error (.duplicateTable rt)
    else .ok { phys with tables := phys.tables ++ [(rt, ⟨reservedColumns, []⟩)] }
  | .createTrigger rt =>
    if (alistLookup phys.tables rt).isSome then .ok phys else .error (.undefinedTable rt)
  | .addColumns rt cols =>
    match alistLookup phys.tables rt with
    | none => .error (.undefinedTable rt)
    | some tbl =>
      match addColsLoop rt phys.tables tbl phys.seqs cols with
      | .error e => .error e
      | .ok (tbl', seqNames') => .ok ⟨alistInsert phys.tables rt tbl', seqNames'⟩
  | .renameColumn rt oldName newName =>
    match alistLookup phys.tables rt with
    | none => .error (.undefinedTable rt)
    | some tbl =>
      match alistLookup tbl.columns oldName with
      | none => .error (.undefinedColumn rt oldName)
      | some _ =>
        if (alistLookup tbl.columns newName).isSome then .error (.duplicateColumn rt newName)
        else
          let tbl' : Table :=
            { tbl with
              columns := tbl.columns.map (fun p => if p.1 == oldName then (newName, p.2) else p),
              fks := tbl.fks.map (fun p => if p.1 == oldName then (newName, p.2) else p) }
          .ok { phys with tables := alistInsert phys.tables rt tbl' }
  | .dropColumn rt col =>
    match alistLookup phys.tables rt with
    | none => .error (.undefinedTable rt)
    | some tbl =>
      if (alistLookup tbl.columns col).isSome then
        let tbl' : Table :=
          { tbl with
            columns := tbl.columns.filter (fun p => !(p.1 == col)),
            fks := tbl.fks.filter (fun p => !(p.1 == col)) }
        .ok { phys with tables := alistInsert phys.tables rt tbl' }
      else .error (.undefinedColumn rt col)

/-- Modelled from the spec: db.c.Exec — the statement text reaches the database (recorded in the trace) and the engine applies the structured operation or rejects it; an injected exec fault rejects every statement. -/
def execStmt (flt : Faults) (st : DBState) (stmt : String) (op : DDL) :
    Except PQError Unit × DBState :=
  let st1 : DBState := { st with trace := st.trace ++ [stmt] }
  if flt.execFail then (.error (.execFailed stmt), st1)
  else
    match execDDL st1.phys op with
    | .ok phys => (.ok (), { st1 with phys := phys })
    | .error e => (.error e, st1)

/-- createTableStmt (source lines 148-163): the CREATE TABLE text with the reserved columns. -/
def createTableStmt (tblName : String) : String :=
  "\nCREATE TABLE " ++ tblName ++ " (\n    _id text,\n    _database_id text,\n    _owner_id text,\n    _access jsonb,\n    _created_at timestamp without time zone NOT NULL,\n    _created_by text,\n    _updated_at timestamp without time zone NOT NULL,\n    _updated_by text,\n    PRIMARY KEY(_id, _database_id, _owner_id),\n    UNIQUE (_id)\n);\n"

/-- CreateTriggerStmtFmt instantiated with the table name (source lines 137-141). -/
def createTriggerStmt (tblName : String) : String :=
  "CREATE TRIGGER trigger_notify_record_change\n    AFTER INSERT OR UPDATE OR DELETE ON " ++
    tblName ++ " FOR EACH ROW\n    EXECUTE PROCEDURE public.notify_record_change();\n"

/-- db.createTable (source lines 127-146): CREATE TABLE then CREATE TRIGGER, each through Exec. -/
def createTable (flt : Faults) (st : DBState) (recordType : String) :
    Except PQError Unit × DBState :=
  match execStmt flt st (createTableStmt (tableName recordType)) (.createTable recordType) with
  | (.error e, st') => (.error e, st')
  | (.ok _, st') =>
    execStmt flt st' (createTriggerStmt (tableName recordType)) (.createTrigger recordType)

/-- fmt.Sprintf("fk_%s_%s_%s", localCol, referent, remoteCol) — the generated foreign-key constraint name (source line 404). -/
def fkConstraintName (localCol referent remoteCol : String) : String :=
  "fk_" ++ localCol ++ "_" ++ referent ++ "_" ++ remoteCol

/-- writeForeignKeyConstraint (source lines 402-412): the text appended to the ALTER TABLE buffer for one foreign-key clause. -/
def writeForeignKeyConstraint (localCol referent remoteCol : String) : String :=
  "ADD CONSTRAINT " ++ quoteIdentifier (fkConstraintName localCol referent remoteCol) ++
    " FOREIGN KEY (" ++ quoteIdentifier localCol ++ ") REFERENCES " ++ tableName referent ++
    " (" ++ quoteIdentifier remoteCol ++ "),"

/-- Loop body of addColumnStmt (source lines 382-394): one ADD clause per staged column, plus the foreign-key clause for assets and references. -/
def addColumnClauses : RecordSchema → String
  | [] => ""
  | (column, schema) :: rest =>
    "ADD " ++ quoteIdentifier column ++ " " ++ pqDataType schema.type ++ "," ++
      (match schema.type with
       | .asset => writeForeignKeyConstraint column "_asset" "id"
       | .reference => writeForeignKeyConstraint column schema.referenceType "_id"
       | _ => "") ++ addColumnClauses rest

/-- addColumnStmt (source lines 377-400): the single ALTER TABLE statement; buf.Truncate removes the final comma. -/
def addColumnStmt (recordType : String) (recordSchema : RecordSchema) : String :=
  let s := "ALTER TABLE " ++ tableName recordType ++ " " ++ addColumnClauses recordSchema
  ⟨s.data.dropLast⟩

/-- Modelled from the spec: skydb's IsNumberCompatibleType — Number, Integer and Sequence are interchangeable for conflict purposes. -/
def isNumberCompatibleType : DataType → Bool
  | .number => true
  | .integer => true
  | .sequence => true
  | _ => false

/-- isConflict (source lines 360-370): identical type tags never conflict, nor do two number-compatible tags. -/
def isConflict (f t : FieldType) : Bool :=
  if f.type = t.type then false
  else if isNumberCompatibleType f.type && isNumberCompatibleType t.type then false
  else true

/-- Native-to-semantic switch in remoteColumnTypes (source lines 273-296), including the _access special case for jsonb and the unknown-type error. -/
def mapNativeType (columnName pqType : String) : Except PQError FieldType :=
  if pqType == TypeString then .ok ⟨.string, ""⟩
  else if pqType == TypeNumber then .ok ⟨.number, ""⟩
  else if pqType == TypeTimestamp then .ok ⟨.dateTime, ""⟩
  else if pqType == TypeBoolean then .ok ⟨.boolean, ""⟩
  else if pqType == TypeJSON then
    .ok (if columnName == "_access" then ⟨.acl, ""⟩ else ⟨.json, ""⟩)
  else if pqType == TypeLocation then .ok ⟨.location, ""⟩
  else if pqType == TypeInteger then .ok ⟨.integer, ""⟩
  else .error (.unknownDataType pqType columnName)

/-- Column-scanning loop of remoteColumnTypes STEP 2 (source lines 266-299): builds the typemap and collects integer column names; on a bad native type it returns the error together with the typemap built so far. -/
def scanLoop : RecordSchema → List String → List (String × String) →
    Option PQError × RecordSchema × List String
  | tm, ints, [] => (none, tm, ints)
  | tm, ints, (columnName, pqType) :: rest =>
    match mapNativeType columnName pqType with
    | .error e => (some e, tm, ints)
    | .ok ft =>
      scanLoop (alistInsert tm columnName ft)
        (if pqType == TypeInteger then ints ++ [columnName] else ints) rest

/-- Modelled from the spec: SQL LIKE match for the pattern recordType\_%\_seq used by getSequences (source line 175); the wildcard matches any, possibly empty, middle part. -/
def likeSeqPattern (recordType rel : String) : Bool :=
  listHasPre (recordType ++ "_").data rel.data &&
    listHasSuf "_seq".data (rel.data.drop (recordType ++ "_").data.length)

/-- Row processing of getSequences: the matching relnames trimmed down to bare column names by TrimPrefix and TrimSuffix (source lines 184-194). -/
def seqColumnList (recordType : String) (seqs : List String) : List String :=
  (seqs.filter (fun rel => likeSeqPattern recordType rel)).map
    (fun rel => goTrimTail (goTrimHead rel (recordType ++ "_")) "_seq")

/-- getSequences (source lines 165-197): list the sequence relnames matching the pattern, then TrimPrefix and TrimSuffix each row down to the bare column name. -/
def getSequences (flt : Faults) (phys : PhysicalDB) (recordType : String) :
    Except PQError (List String) :=
  if flt.seqFail then .error (.queryFault "getSequences")
  else .ok (seqColumnList recordType phys.seqs)

/-- STEP 2.1 loop of remoteColumnTypes (source lines 313-320): reclassify each integer column with a matching sequence; the Go map read of a present key is modelled with a zero-value default that our uses never reach. -/
def applySeqLoop (seqList : List String) : RecordSchema → List String → RecordSchema
  | tm, [] => tm
  | tm, c :: rest =>
    if seqList.contains c then
      let ft := (alistLookup tm c).getD ⟨.string, ""⟩
      applySeqLoop seqList (alistInsert tm c { ft with type := .sequence }) rest
    else applySeqLoop seqList tm rest

/-- Switch on the referenced table (source lines 348-354): _asset yields Asset with ReferenceType unset, anything else a Reference carrying the table name. -/
def fkFieldType (referencedTable : String) : FieldType :=
  if referencedTable == "_asset" then ⟨.asset, ""⟩ else ⟨.reference, referencedTable⟩

/-- Foreign-key scanning loop of remoteColumnTypes STEP 3 (source lines 341-356). -/
def applyFKLoop : RecordSchema → List (String × String) → RecordSchema
  | tm, [] => tm
  | tm, (primaryColumn, referencedTable) :: rest =>
    applyFKLoop (alistInsert tm primaryColumn (fkFieldType referencedTable)) rest

/-- remoteColumnTypes after the cache check (source lines 221-357): produces the result together with the typemap value that the deferred function writes into the cache on that return path. -/
def remoteColumnTypesBody (flt : Faults) (phys : PhysicalDB) (recordType : String) :
    Except PQError (Option RecordSchema) × RecordSchema :=
  if flt.oidFail then (.error (.queryFault "oid"), [])
  else
    match alistLookup phys.tables recordType with
    | none => (.ok none, [])
    | some tbl =>
      if flt.colFail then (.error (.queryFault "columns"), [])
      else
        match scanLoop [] [] tbl.columns with
        | (some e, tm, _) => (.error e, tm)
        | (none, tm, ints) =>
          match (if ints.length > 0 then
                   match getSequences flt phys recordType with
                   | .error e => .error e
                   | .ok seqList => .ok (applySeqLoop seqList tm ints)
                 else .ok tm : Except PQError RecordSchema) with
          | .error e => (.error e, tm)
          | .ok tm2 =>
            if flt.fkFail then (.error (.queryFault "foreignKeys"), tm2)
            else
              let tm3 := applyFKLoop tm2 tbl.fks
              (.ok (some tm3), tm3)

/-- remoteColumnTypes (source lines 215-358): cache consultation first; on a miss the body runs and its typemap is stored by the deferred write on every return path, error or not. -/
def remoteColumnTypes (flt : Faults) (st : DBState) (recordType : String) :
    Except PQError (Option RecordSchema) × DBState :=
  match alistLookup st.cache recordType with
  | some schema => (.ok (some schema), st)
  | none =>
    let r := remoteColumnTypesBody flt st.phys recordType
    (r.1, { st with cache := alistInsert st.cache recordType r.2 })

/-- GetSchema (source lines 87-93): a pure pass-through to remoteColumnTypes. -/
def GetSchema (flt : Faults) (st : DBState) (recordType : String) :
    Except PQError (Option RecordSchema) × DBState :=
  remoteColumnTypes flt st recordType

/-- RenameSchema (source lines 64-74): a single ALTER TABLE RENAME through Exec, the error wrapped as a failed alter. -/
def RenameSchema (flt : Faults) (st : DBState) (recordType oldName newName : String) :
    Except PQError Unit × DBState :=
  let stmt := "ALTER TABLE " ++ tableName recordType ++ " RENAME " ++
    quoteIdentifier oldName ++ " TO " ++ quoteIdentifier newName
  match execStmt flt st stmt (.renameColumn recordType oldName newName) with
  | (.error e, st') => (.error (.alterTableFailed e), st')
  | (.ok _, st') => (.ok (), st')

/-- DeleteSchema (source lines 76-85): a single ALTER TABLE DROP through Exec, the error wrapped as a failed alter. -/
def DeleteSchema (flt : Faults) (st : DBState) (recordType columnName : String) :
    Except PQError Unit × DBState :=
  let stmt := "ALTER TABLE " ++ tableName recordType ++ " DROP " ++ quoteIdentifier columnName
  match execStmt flt st stmt (.dropColumn recordType columnName) with
  | (.error e, st') => (.error (.alterTableFailed e), st')
  | (.ok _, st') => (.ok (), st')

/-- Go read of a possibly nil map: a nil remote schema has no entries. -/
def optLookup : Option RecordSchema → String → Option FieldType
  | none, _ => none
  | some m, key => alistLookup m key

/-- Go len of a possibly nil map. -/
def optLen : Option RecordSchema → Nat
  | none => 0
  | some m => m.length

/-- Staging loop of Extend (source lines 40-50): stage fields absent remotely, abort on the first conflicting one returning the offending remote and desired FieldType. -/
def buildUpdating (remote : Option RecordSchema) :
    RecordSchema → RecordSchema → Except (FieldType × FieldType) RecordSchema
  | acc, [] => .ok acc
  | acc, (key, schema) :: rest =>
    match optLookup remote key with
    | none => buildUpdating remote (alistInsert acc key schema) rest
    | some remoteSchema =>
      if isConflict remoteSchema schema then .error (remoteSchema, schema)
      else buildUpdating remote acc rest

/-- Extend (source lines 29-62): introspect, create the table when the remote schema is empty, stage and conflict-check the desired fields, run one ALTER TABLE when anything is staged, and finally delete the cache entry on the success path. -/
def Extend (flt : Faults) (st : DBState) (recordType : String) (recordSchema : RecordSchema) :
    Except PQError Unit × DBState :=
  match remoteColumnTypes flt st recordType with
  | (.error e, st1) => (.error e, st1)
  | (.ok remote, st1) =>
    match (if optLen remote == 0 then
             match createTable flt st1 recordType with
             | (.error e, st2) => (.error (.createTableFailed e), st2)
             | (.ok _, st2) => (.ok (), st2)
           else (.ok (), st1) : Except PQError Unit × DBState) with
    | (.error e, st2) => (.error e, st2)
    | (.ok _, st2) =>
      match buildUpdating remote [] recordSchema with
      | .error (r, d) => (.error (.conflictingSchema r d), st2)
      | .ok updatingSchema =>
        match (if updatingSchema.length > 0 then
                 match execStmt flt st2 (addColumnStmt recordType updatingSchema)
                     (.addColumns recordType updatingSchema) with
                 | (.error e, st3) => (.error (.alterTableFailed e), st3)
                 | (.ok _, st3) => (.ok (), st3)
               else (.ok (), st2) : Except PQError Unit × DBState) with
        | (.error e, st3) => (.error e, st3)
        | (.ok _, st3) => (.ok (), { st3 with cache := alistErase st3.cache recordType })

/-! Association-list lemmas. -/

theorem alistLookup_insert_self {α : Type} (m : List (String × α)) (k : String) (v : α) :
    alistLookup (alistInsert m k v) k = some v := by
  induction m with
  | nil => simp [alistInsert, alistLookup]
  | cons p rest ih =>
    obtain ⟨k', v'⟩ := p
    by_cases h : k' = k
    · simp [alistInsert, alistLookup, h]
    · simp [alistInsert, alistLookup, h, ih]

theorem alistLookup_insert_ne {α : Type} (m : List (String × α)) (k key : String) (v : α)
    (h : k ≠ key) : alistLookup (alistInsert m k v) key = alistLookup m key := by
  induction m with
  | nil => simp [alistInsert, alistLookup, h]
  | cons p rest ih =>
    obtain ⟨k', v'⟩ := p
    by_cases h' : k' = k
    · subst h'
      simp [alistInsert, alistLookup, h]
    · simp [alistInsert, alistLookup, h', ih]

theorem alistLookup_erase {α : Type} (m : List (String × α)) (k key : String) :
    alistLookup (alistErase m k) key = if key = k then none else alistLookup m key := by
  induction m with
  | nil => simp [alistErase, alistLookup]
  | cons p rest ih =>
    obtain ⟨k', v'⟩ := p
    simp only [alistErase]
    by_cases h' : k' = k
    · rw [if_pos (beq_iff_eq.mpr h'), ih]
      by_cases hk : key = k
      · simp [hk]
      · have hne : ¬ k' = key := fun he => hk (he.symm.trans h')
        simp [alistLookup, hk, hne]
    · rw [if_neg (by simpa using h')]
      by_cases hk2 : k' = key
      · have hne : ¬ key = k := fun he => h' (hk2.trans he)
        simp [alistLookup, hk2, hne]
      · simp [alistLookup, hk2, ih]

theorem alistLookup_eq_none_iff {α : Type} (m : List (String × α)) (k : String) :
    alistLookup m k = none ↔ k ∉ m.map Prod.fst := by
  induction m with
  | nil => simp [alistLookup]
  | cons p rest ih =>
    obtain ⟨k', v'⟩ := p
    by_cases h : k' = k
    · simp [alistLookup, h]
    · simp [alistLookup, h, ih, Ne.symm h]

theorem alistLookup_isSome_iff {α : Type} (m : List (String × α)) (k : String) :
    (alistLookup m k).isSome = true ↔ k ∈ m.map Prod.fst := by
  induction m with
  | nil => simp [alistLookup]
  | cons p rest ih =>
    obtain ⟨k', v'⟩ := p
    by_cases h : k' = k
    · simp [alistLookup, h]
    · simp [alistLookup, h, ih, Ne.symm h]

theorem alistLookup_append_left {α : Type} {xs : List (String × α)} {k : String} {v : α}
    (h : alistLookup xs k = some v) (ys : List (String × α)) :
    alistLookup (xs ++ ys) k = some v := by
  induction xs with
  | nil => simp [alistLookup] at h
  | cons p rest ih =>
    obtain ⟨k', v'⟩ := p
    by_cases hk : k' = k
    · simp [alistLookup, hk] at h ⊢
      exact h
    · simp [alistLookup, hk] at h ⊢
      exact ih h

theorem alistLookup_append_right {α : Type} {xs : List (String × α)} {k : String}
    (h : alistLookup xs k = none) (ys : List (String × α)) :
    alistLookup (xs ++ ys) k = alistLookup ys k := by
  induction xs with
  | nil => simp [alistLookup]
  | cons p rest ih =>
    obtain ⟨k', v'⟩ := p
    by_cases hk : k' = k
    · simp [alistLookup, hk] at h
    · simp [alistLookup, hk] at h ⊢
      exact ih h

theorem alistLookup_of_mem_nodup {α : Type} {m : List (String × α)} {k : String} {v : α}
    (hnd : (m.map Prod.fst).Nodup) (hm : (k, v) ∈ m) : alistLookup m k = some v := by
  induction m with
  | nil => simp at hm
  | cons p rest ih =>
    obtain ⟨k', v'⟩ := p
    simp only [List.map_cons, List.nodup_cons] at hnd
    rcases List.mem_cons.mp hm with h | h
    · rw [Prod.ext_iff] at h
      obtain ⟨h1, h2⟩ := h
      simp only at h1 h2
      subst h1
      subst h2
      simp [alistLookup]
    · have hmem : k ∈ rest.map Prod.fst := List.mem_map.mpr ⟨(k, v), h, rfl⟩
      have hne : k' ≠ k := fun he => hnd.1 (by rw [he]; exact hmem)
      simp [alistLookup, hne]
      exact ih hnd.2 h

theorem alistLookup_ne_nil {α : Type} {m : List (String × α)} {k : String} {v : α}
    (h : alistLookup m k = some v) : m ≠ [] := by
  intro he
  subst he
  simp [alistLookup] at h

theorem alistInsert_of_none {α : Type} {m : List (String × α)} {k : String}
    (h : alistLookup m k = none) (v : α) : alistInsert m k v = m ++ [(k, v)] := by
  induction m with
  | nil => simp [alistInsert]
  | cons p rest ih =>
    obtain ⟨k', v'⟩ := p
    by_cases hk : k' = k
    · simp [alistLookup, hk] at h
    · simp [alistLookup, hk] at h
      simp [alistInsert, hk, ih h]


/-! String and LIKE-pattern lemmas. -/

theorem sdata_append (a b : String) : (a ++ b).data = a.data ++ b.data := by
  cases a
  cases b
  rfl

theorem sdata_inj {a b : String} (h : a.data = b.data) : a = b := by
  cases a
  cases b
  exact congrArg String.mk h

theorem smk_data (s : String) : (⟨s.data⟩ : String) = s := rfl

theorem listHasPre_refl_append (a b : List Char) : listHasPre a (a ++ b) = true := by
  induction a with
  | nil => simp [listHasPre]
  | cons c cs ih => simp [listHasPre, ih]

theorem listHasPre_iff (p s : List Char) : listHasPre p s = true ↔ ∃ r, s = p ++ r := by
  induction p generalizing s with
  | nil => simp [listHasPre]
  | cons c cs ih =>
    cases s with
    | nil => simp [listHasPre]
    | cons d ds =>
      simp only [listHasPre, Bool.and_eq_true, beq_iff_eq, ih, List.cons_append, List.cons.injEq]
      constructor
      · rintro ⟨h1, r, h2⟩
        exact ⟨r, h1.symm, h2⟩
      · rintro ⟨r, h1, h2⟩
        exact ⟨h1.symm, r, h2⟩

theorem listHasSuf_iff (suf s : List Char) : listHasSuf suf s = true ↔ ∃ r, s = r ++ suf := by
  unfold listHasSuf
  rw [listHasPre_iff]
  constructor
  · rintro ⟨r, hr⟩
    refine ⟨r.reverse, ?_⟩
    have h2 := congrArg List.reverse hr
    simpa [List.reverse_append] using h2
  · rintro ⟨r, rfl⟩
    exact ⟨r.reverse, by simp [List.reverse_append]⟩

theorem goTrimHead_append (p r : String) : goTrimHead (p ++ r) p = r := by
  unfold goTrimHead
  rw [sdata_append, if_pos (listHasPre_refl_append _ _), List.drop_left]

theorem goTrimTail_append (r suf : String) : goTrimTail (r ++ suf) suf = r := by
  unfold goTrimTail
  rw [sdata_append, if_pos ((listHasSuf_iff _ _).mpr ⟨r.data, rfl⟩)]
  have hlen : (r.data ++ suf.data).length - suf.data.length = r.data.length := by simp
  rw [hlen, List.take_left]

theorem strAssoc (a b c : String) : a ++ b ++ c = a ++ (b ++ c) := by
  apply sdata_inj
  simp [sdata_append, List.append_assoc]

theorem seqName_trim (rt c : String) :
    goTrimTail (goTrimHead (rt ++ "_" ++ c ++ "_seq") (rt ++ "_")) "_seq" = c := by
  have h1 : rt ++ "_" ++ c ++ "_seq" = (rt ++ "_") ++ (c ++ "_seq") := by
    rw [strAssoc]
  rw [h1, goTrimHead_append, goTrimTail_append]

theorem likeSeqPattern_name (rt c : String) :
    likeSeqPattern rt (rt ++ "_" ++ c ++ "_seq") = true := by
  unfold likeSeqPattern
  have h1 : (rt ++ "_" ++ c ++ "_seq").data = (rt ++ "_").data ++ (c.data ++ "_seq".data) := by
    simp [sdata_append, List.append_assoc]
  rw [h1, Bool.and_eq_true]
  refine ⟨listHasPre_refl_append _ _, ?_⟩
  rw [List.drop_left]
  exact (listHasSuf_iff _ _).mpr ⟨c.data, rfl⟩

theorem likeSeqPattern_elim {rt rel : String} (h : likeSeqPattern rt rel = true) :
    rel = rt ++ "_" ++ goTrimTail (goTrimHead rel (rt ++ "_")) "_seq" ++ "_seq" := by
  unfold likeSeqPattern at h
  rw [Bool.and_eq_true] at h
  obtain ⟨h1, h2⟩ := h
  obtain ⟨r, hr⟩ := (listHasPre_iff _ _).mp h1
  rw [hr, List.drop_left] at h2
  obtain ⟨m, hm⟩ := (listHasSuf_iff _ _).mp h2
  have hth : goTrimHead rel (rt ++ "_") = ⟨r⟩ := by
    unfold goTrimHead
    rw [if_pos (by rw [hr]; exact listHasPre_refl_append _ _), hr, List.drop_left]
  have hrel2 : (⟨r⟩ : String) = (⟨m⟩ : String) ++ "_seq" := by
    apply sdata_inj
    rw [sdata_append]
    exact hm
  have htt : goTrimTail (⟨r⟩ : String) "_seq" = ⟨m⟩ := by
    rw [hrel2, goTrimTail_append]
  rw [hth, htt]
  apply sdata_inj
  simp only [sdata_append, hr, hm]
  simp [List.append_assoc]

theorem seqColumnList_mem (rt c : String) (seqs : List String) :
    c ∈ seqColumnList rt seqs ↔ (rt ++ "_" ++ c ++ "_seq") ∈ seqs := by
  unfold seqColumnList
  simp only [List.mem_map, List.mem_filter]
  constructor
  · rintro ⟨rel, ⟨hmem, hpat⟩, htrim⟩
    have he := likeSeqPattern_elim hpat
    rw [htrim] at he
    rw [← he]
    exact hmem
  · intro hmem
    exact ⟨rt ++ "_" ++ c ++ "_seq", ⟨hmem, likeSeqPattern_name rt c⟩, seqName_trim rt c⟩

theorem listContains_iff (l : List String) (a : String) : l.contains a = true ↔ a ∈ l := by
  simp

theorem seqColumnList_append (rt : String) (xs ys : List String) :
    seqColumnList rt (xs ++ ys) = seqColumnList rt xs ++ seqColumnList rt ys := by
  unfold seqColumnList
  rw [List.filter_append, List.map_append]

/-! Introspection loop lemmas. -/

theorem applyFKLoop_lookup (fks : List (String × String)) (tm : RecordSchema) (k : String) :
    alistLookup (applyFKLoop tm fks) k =
      match alistLookup fks.reverse k with
      | some ref => some (fkFieldType ref)
      | none => alistLookup tm k := by
  induction fks generalizing tm with
  | nil => simp [applyFKLoop, alistLookup]
  | cons p rest ih =>
    obtain ⟨col, ref⟩ := p
    simp only [applyFKLoop]
    rw [ih, List.reverse_cons]
    cases hr : alistLookup rest.reverse k with
    | some ref' =>
      rw [alistLookup_append_left hr]
    | none =>
      rw [alistLookup_append_right hr]
      by_cases hk : col = k
      · subst hk
        simp [alistLookup, alistLookup_insert_self]
      · simp only [alistLookup]
        rw [if_neg (by simpa using hk)]
        rw [alistLookup_insert_ne _ _ _ _ hk]

theorem applySeqLoop_lookup (s : List String) (ints : List String) (tm : RecordSchema)
    (k : String) (hall : ∀ c ∈ ints, (alistLookup tm c).isSome = true) :
    alistLookup (applySeqLoop s tm ints) k =
      match alistLookup tm k with
      | none => none
      | some ft => some (if k ∈ ints ∧ k ∈ s then { ft with type := .sequence } else ft) := by
  induction ints generalizing tm with
  | nil =>
    simp only [applySeqLoop]
    cases alistLookup tm k <;> simp
  | cons c rest ih =>
    simp only [applySeqLoop]
    cases hcs : s.contains c with
    | true =>
      simp only [hcs, if_true]
      have hcmem : c ∈ s := (listContains_iff _ _).mp hcs
      have hsome := hall c (by simp)
      obtain ⟨ft0, hft0⟩ := Option.isSome_iff_exists.mp hsome
      rw [hft0]
      simp only [Option.getD_some]
      have hall' : ∀ c' ∈ rest,
          (alistLookup (alistInsert tm c { ft0 with type := .sequence }) c').isSome = true := by
        intro c' hc'
        by_cases he : c = c'
        · subst he
          rw [alistLookup_insert_self]
          rfl
        · rw [alistLookup_insert_ne _ _ _ _ he]
          exact hall c' (by simp [hc'])
      rw [ih _ hall']
      by_cases hk : k = c
      · subst hk
        rw [alistLookup_insert_self, hft0]
        simp only [List.mem_cons, true_or, hcmem, and_true, if_true]
        split <;> rfl
      · rw [alistLookup_insert_ne _ _ _ _ (fun he => hk he.symm)]
        cases htm : alistLookup tm k with
        | none => rfl
        | some ftk => simp [List.mem_cons, hk]
    | false =>
      rw [if_neg (by simp)]
      have hcnot : c ∉ s := fun hm => by
        rw [(listContains_iff s c).mpr hm] at hcs
        exact Bool.noConfusion hcs
      rw [ih _ (fun c' hc' => hall c' (by simp [hc']))]
      cases htm : alistLookup tm k with
      | none => rfl
      | some ftk =>
        by_cases hk : k = c
        · subst hk
          have h1 : ¬ (k ∈ rest ∧ k ∈ s) := fun hh => hcnot hh.2
          have h2 : ¬ (k ∈ k :: rest ∧ k ∈ s) := fun hh => hcnot hh.2
          simp only [if_neg h1, if_neg h2]
        · simp [List.mem_cons, hk]

theorem scanLoop_append (xs ys : List (String × String)) (tm : RecordSchema)
    (ints : List String) :
    scanLoop tm ints (xs ++ ys) =
      match scanLoop tm ints xs with
      | (some e, tm', ints') => (some e, tm', ints')
      | (none, tm', ints') => scanLoop tm' ints' ys := by
  induction xs generalizing tm ints with
  | nil => simp [scanLoop]
  | cons p rest ih =>
    obtain ⟨n, ty⟩ := p
    simp only [List.cons_append, scanLoop]
    cases mapNativeType n ty with
    | error e => rfl
    | ok ft => exact ih _ _

theorem scanLoop_lookup (cols : List (String × String)) (tm0 : RecordSchema)
    (ints0 : List String) {tm : RecordSchema} {ints : List String}
    (h : scanLoop tm0 ints0 cols = (none, tm, ints)) (k : String) :
    match alistLookup cols.reverse k with
    | none => alistLookup tm k = alistLookup tm0 k
    | some ty => ∃ ft, mapNativeType k ty = .ok ft ∧ alistLookup tm k = some ft := by
  induction cols generalizing tm0 ints0 with
  | nil =>
    simp only [scanLoop] at h
    cases h
    simp [alistLookup]
  | cons p rest ih =>
    obtain ⟨n, ty⟩ := p
    simp only [scanLoop] at h
    cases hmap : mapNativeType n ty with
    | error e =>
      rw [hmap] at h
      simp at h
    | ok ft =>
      rw [hmap] at h
      have ihh := ih _ _ h
      rw [List.reverse_cons]
      cases hr : alistLookup rest.reverse k with
      | some ty' =>
        rw [alistLookup_append_left hr]
        rw [hr] at ihh
        exact ihh
      | none =>
        rw [alistLookup_append_right hr]
        rw [hr] at ihh
        simp only at ihh
        by_cases hk : n = k
        · subst hk
          simp only [alistLookup, if_pos (by simp : (n == n) = true)]
          refine ⟨ft, hmap, ?_⟩
          rw [ihh, alistLookup_insert_self]
        · simp only [alistLookup]
          rw [if_neg (by simpa using hk)]
          simp only []
          rw [ihh, alistLookup_insert_ne _ _ _ _ hk]

theorem scanLoop_ints (cols : List (String × String)) (tm0 : RecordSchema)
    (ints0 : List String) {tm : RecordSchema} {ints : List String}
    (h : scanLoop tm0 ints0 cols = (none, tm, ints)) :
    ints = ints0 ++ (cols.filter (fun p => p.2 == TypeInteger)).map Prod.fst := by
  induction cols generalizing tm0 ints0 with
  | nil =>
    simp only [scanLoop] at h
    cases h
    simp
  | cons p rest ih =>
    obtain ⟨n, ty⟩ := p
    simp only [scanLoop] at h
    cases hmap : mapNativeType n ty with
    | error e =>
      rw [hmap] at h
      simp at h
    | ok ft =>
      rw [hmap] at h
      have ihh := ih _ _ h
      by_cases hty : (ty == TypeInteger) = true
      · rw [if_pos hty] at ihh
        simp only [List.filter_cons, hty, List.map_cons, ihh]
        simp
      · rw [if_neg hty] at ihh
        rw [Bool.not_eq_true] at hty
        simp [List.filter_cons, hty, ihh]

theorem scanLoop_ok_all (cols : List (String × String)) (tm0 : RecordSchema)
    (ints0 : List String) {tm : RecordSchema} {ints : List String}
    (h : scanLoop tm0 ints0 cols = (none, tm, ints)) :
    ∀ p ∈ cols, ∃ ft, mapNativeType p.1 p.2 = .ok ft := by
  induction cols generalizing tm0 ints0 with
  | nil => simp
  | cons p rest ih =>
    obtain ⟨n, ty⟩ := p
    simp only [scanLoop] at h
    cases hmap : mapNativeType n ty with
    | error e =>
      rw [hmap] at h
      simp at h
    | ok ft =>
      rw [hmap] at h
      intro q hq
      rcases List.mem_cons.mp hq with hq | hq
      · subst hq
        exact ⟨ft, hmap⟩
      · exact ih _ _ h q hq

theorem scanLoop_none_of_all (cols : List (String × String)) (tm0 : RecordSchema)
    (ints0 : List String)
    (h : ∀ p ∈ cols, ∃ ft, mapNativeType p.1 p.2 = .ok ft) :
    (scanLoop tm0 ints0 cols).1 = none := by
  induction cols generalizing tm0 ints0 with
  | nil => rfl
  | cons p rest ih =>
    obtain ⟨n, ty⟩ := p
    obtain ⟨ft, hft⟩ := h (n, ty) (by simp)
    simp only [scanLoop, hft]
    exact ih _ _ (fun q hq => h q (by simp [hq]))

/-! Characterization of one successful fault-free introspection. -/

theorem noFaults_oidFail : noFaults.oidFail = false := rfl

theorem noFaults_colFail : noFaults.colFail = false := rfl

theorem noFaults_seqFail : noFaults.seqFail = false := rfl

theorem noFaults_fkFail : noFaults.fkFail = false := rfl

theorem noFaults_execFail : noFaults.execFail = false := rfl

theorem getSequences_noFaults (phys : PhysicalDB) (rt : String) :
    getSequences noFaults phys rt = .ok (seqColumnList rt phys.seqs) := rfl

theorem alistLookup_isSome_of_mem {α : Type} {m : List (String × α)} {k : String} {v : α}
    (h : (k, v) ∈ m) : (alistLookup m k).isSome = true :=
  (alistLookup_isSome_iff _ _).mpr (List.mem_map.mpr ⟨(k, v), h, rfl⟩)

/-- Value that a successful fault-free introspection assigns to one column name, assembled from the loop characterizations: a foreign key overrides everything; otherwise the native mapping of the last catalog row for that name, upgraded to Sequence when the name is integer-typed and matched by a trimmed sequence name. -/
def introValue (rt : String) (seqs : List String) (tbl : Table) (k : String) : Option FieldType :=
  match alistLookup tbl.fks.reverse k with
  | some ref => some (fkFieldType ref)
  | none =>
    match alistLookup tbl.columns.reverse k with
    | none => none
    | some ty =>
      match mapNativeType k ty with
      | .error _ => none
      | .ok ft =>
        some (if k ∈ (tbl.columns.filter (fun p => p.2 == TypeInteger)).map Prod.fst
                ∧ k ∈ seqColumnList rt seqs
              then { ft with type := .sequence } else ft)

theorem body_noFaults_eq (phys : PhysicalDB) (rt : String) (tbl : Table)
    (tm : RecordSchema) (ints : List String)
    (htbl : alistLookup phys.tables rt = some tbl)
    (hscan : scanLoop [] [] tbl.columns = (none, tm, ints)) :
    remoteColumnTypesBody noFaults phys rt =
      (.ok (some (applyFKLoop
          (if ints.length > 0 then applySeqLoop (seqColumnList rt phys.seqs) tm ints else tm)
          tbl.fks)),
        applyFKLoop
          (if ints.length > 0 then applySeqLoop (seqColumnList rt phys.seqs) tm ints else tm)
          tbl.fks) := by
  unfold remoteColumnTypesBody
  simp only [noFaults_oidFail, noFaults_colFail, noFaults_fkFail, Bool.false_eq_true,
    if_false, htbl, hscan, getSequences_noFaults]
  by_cases hlen : ints.length > 0
  · simp [hlen]
  · simp [hlen]

theorem body_ok_inv {phys : PhysicalDB} {rt : String} {R : RecordSchema}
    (hok : (remoteColumnTypesBody noFaults phys rt).1 = .ok (some R)) :
    ∃ tbl tm ints, alistLookup phys.tables rt = some tbl ∧
      scanLoop [] [] tbl.columns = (none, tm, ints) ∧
      R = applyFKLoop
        (if ints.length > 0 then applySeqLoop (seqColumnList rt phys.seqs) tm ints else tm)
        tbl.fks := by
  cases htbl : alistLookup phys.tables rt with
  | none =>
    have heq : remoteColumnTypesBody noFaults phys rt = (.ok none, []) := by
      unfold remoteColumnTypesBody
      simp [noFaults_oidFail, htbl]
    rw [heq] at hok
    simp at hok
  | some tbl =>
    rcases hscan : scanLoop [] [] tbl.columns with ⟨e, tm, ints⟩
    cases e with
    | some e' =>
      have heq : remoteColumnTypesBody noFaults phys rt = (.error e', tm) := by
        unfold remoteColumnTypesBody
        simp [noFaults_oidFail, noFaults_colFail, htbl, hscan]
      rw [heq] at hok
      simp at hok
    | none =>
      have heq := body_noFaults_eq phys rt tbl tm ints htbl hscan
      rw [heq] at hok
      simp at hok
      exact ⟨tbl, tm, ints, rfl, hscan, hok.symm⟩

theorem body_ok_lookup {phys : PhysicalDB} {rt : String} {tbl : Table} {R : RecordSchema}
    (htbl : alistLookup phys.tables rt = some tbl)
    (hok : (remoteColumnTypesBody noFaults phys rt).1 = .ok (some R)) (k : String) :
    alistLookup R k = introValue rt phys.seqs tbl k := by
  obtain ⟨tbl', tm, ints, htbl', hscan, hR⟩ := body_ok_inv hok
  rw [htbl] at htbl'
  injection htbl' with htbl2
  subst htbl2
  subst hR
  rw [applyFKLoop_lookup]
  cases hfk : alistLookup tbl.fks.reverse k with
  | some ref =>
    unfold introValue
    rw [hfk]
  | none =>
    unfold introValue
    rw [hfk]
    have hints := scanLoop_ints _ _ _ hscan
    simp only [List.nil_append] at hints
    have hlk := scanLoop_lookup _ _ _ hscan k
    have hall : ∀ c ∈ ints, (alistLookup tm c).isSome = true := by
      intro c hc
      rw [hints] at hc
      simp only [List.mem_map, List.mem_filter] at hc
      obtain ⟨p, ⟨hpmem, hpty⟩, hpc⟩ := hc
      have hrev : (alistLookup tbl.columns.reverse c).isSome = true := by
        apply alistLookup_isSome_of_mem (v := p.2)
        rw [List.mem_reverse]
        rw [← hpc]
        exact hpmem
      have hlkc := scanLoop_lookup _ _ _ hscan c
      cases hcc : alistLookup tbl.columns.reverse c with
      | none =>
        rw [hcc] at hrev
        simp at hrev
      | some tyc =>
        rw [hcc] at hlkc
        obtain ⟨ftc, _, hlupc⟩ := hlkc
        rw [hlupc]
        rfl
    by_cases hlen : ints.length > 0
    · rw [if_pos hlen]
      rw [applySeqLoop_lookup _ _ _ _ hall]
      cases hcol : alistLookup tbl.columns.reverse k with
      | none =>
        simp only [hcol] at hlk ⊢
        simp only [alistLookup] at hlk
        simp [hlk]
      | some ty =>
        simp only [hcol] at hlk ⊢
        obtain ⟨ft, hft, hlup⟩ := hlk
        simp only [hlup, hft]
        rw [hints]
    · rw [if_neg hlen]
      have hnil : ints = [] := List.length_eq_zero.mp (Nat.eq_zero_of_not_pos hlen)
      cases hcol : alistLookup tbl.columns.reverse k with
      | none =>
        simp only [hcol] at hlk ⊢
        simp only [alistLookup] at hlk
        simp [hlk]
      | some ty =>
        simp only [hcol] at hlk ⊢
        obtain ⟨ft, hft, hlup⟩ := hlk
        simp only [hlup, hft]
        have hcond : ¬ (k ∈ (tbl.columns.filter (fun p => p.2 == TypeInteger)).map Prod.fst
            ∧ k ∈ seqColumnList rt phys.seqs) := by
          rintro ⟨hmem, _⟩
          rw [← hints, hnil] at hmem
          simp at hmem
        rw [if_neg hcond]

/-! State-shape lemmas for the operations. -/

theorem remoteColumnTypes_state (flt : Faults) (st : DBState) (rt : String) :
    ((remoteColumnTypes flt st rt).2).phys = st.phys ∧
      ((remoteColumnTypes flt st rt).2).trace = st.trace := by
  unfold remoteColumnTypes
  cases alistLookup st.cache rt <;> simp

theorem execStmt_cache (flt : Faults) (st : DBState) (stmt : String) (op : DDL) :
    ((execStmt flt st stmt op).2).cache = st.cache := by
  unfold execStmt
  by_cases h : flt.execFail = true
  · simp [h]
  · rw [Bool.not_eq_true] at h
    simp only [h, Bool.false_eq_true, if_false]
    cases execDDL st.phys op <;> simp

theorem createTable_cache (flt : Faults) (st : DBState) (rt : String) :
    ((createTable flt st rt).2).cache = st.cache := by
  unfold createTable
  rcases h1 : execStmt flt st (createTableStmt (tableName rt)) (.createTable rt) with ⟨r1, st1⟩
  have hc1 : st1.cache = st.cache := by
    have := execStmt_cache flt st (createTableStmt (tableName rt)) (.createTable rt)
    rw [h1] at this
    exact this
  cases r1 with
  | error e => simpa using hc1
  | ok _ =>
    simp only []
    have := execStmt_cache flt st1 (createTriggerStmt (tableName rt)) (.createTrigger rt)
    rw [this, hc1]

/-! Staging and DDL-execution lemmas. -/

/-- Column rows appended to the catalog by a successful ALTER for the staged schema. -/
def colAdditions (u : RecordSchema) : List (String × String) :=
  u.map (fun p => (p.1, physColType p.2.type))

/-- Foreign keys appended to the catalog by a successful ALTER for the staged schema. -/
def fkAdditions (u : RecordSchema) : List (String × String) :=
  u.filterMap (fun p =>
    match p.2.type with
    | .asset => some (p.1, "_asset")
    | .reference => some (p.1, p.2.referenceType)
    | _ => none)

/-- Sequence names appended to the catalog by a successful ALTER for the staged schema. -/
def seqAdditions (recordType : String) (u : RecordSchema) : List String :=
  u.filterMap (fun p =>
    if p.2.type = .sequence then some (recordType ++ "_" ++ p.1 ++ "_seq") else none)

theorem colAdditions_cons (p : String × FieldType) (rest : RecordSchema) :
    colAdditions (p :: rest) = (p.1, physColType p.2.type) :: colAdditions rest := by
  simp [colAdditions]

theorem fkAdditions_cons (p : String × FieldType) (rest : RecordSchema) :
    fkAdditions (p :: rest) = fkAdditions [p] ++ fkAdditions rest := by
  unfold fkAdditions
  cases htype : p.2.type <;> simp [List.filterMap_cons, htype]

theorem seqAdditions_cons (recordType : String) (p : String × FieldType)
    (rest : RecordSchema) :
    seqAdditions recordType (p :: rest) =
      seqAdditions recordType [p] ++ seqAdditions recordType rest := by
  unfold seqAdditions
  by_cases htype : p.2.type = .sequence <;> simp [List.filterMap_cons, htype]

theorem addOneCol_ok_inv {recordType col : String} {ft : FieldType}
    {tables : List (String × Table)} {tbl : Table} {seqNames : List String}
    {tbl2 : Table} {seqNames2 : List String}
    (h : addOneCol recordType col ft tables tbl seqNames = .ok (tbl2, seqNames2)) :
    alistLookup tbl.columns col = none ∧
    tbl2.columns = tbl.columns ++ [(col, physColType ft.type)] ∧
    tbl2.fks = tbl.fks ++ fkAdditions [(col, ft)] ∧
    seqNames2 = seqNames ++ seqAdditions recordType [(col, ft)] := by
  unfold addOneCol at h
  by_cases hdup : (alistLookup tbl.columns col).isSome = true
  · rw [if_pos hdup] at h
    simp at h
  · rw [if_neg hdup] at h
    have hnone : alistLookup tbl.columns col = none :=
      Option.not_isSome_iff_eq_none.mp (by simpa using hdup)
    refine ⟨hnone, ?_⟩
    unfold fkAdditions seqAdditions
    cases hty : ft.type <;> simp only [hty] at h ⊢
    · cases h
      exact ⟨rfl, by simp [hty], by simp [hty]⟩
    · cases h
      exact ⟨rfl, by simp [hty], by simp [hty]⟩
    · cases h
      exact ⟨rfl, by simp [hty], by simp [hty]⟩
    · cases h
      exact ⟨rfl, by simp [hty], by simp [hty]⟩
    · cases h
      exact ⟨rfl, by simp [hty], by simp [hty]⟩
    · cases h
      exact ⟨rfl, by simp [hty], by simp [hty]⟩
    · cases h
      exact ⟨rfl, by simp [hty], by simp [hty]⟩
    · cases h
      exact ⟨rfl, by simp [hty], by simp [hty]⟩
    · cases h
      exact ⟨rfl, by simp [hty], by simp [hty]⟩
    · by_cases hass : (alistLookup tables "_asset").isSome = true
      · rw [if_pos hass] at h
        cases h
        exact ⟨rfl, by simp [hty], by simp [hty]⟩
      · rw [if_neg hass] at h
        simp at h
    · by_cases href : (alistLookup tables ft.referenceType).isSome = true
      · rw [if_pos href] at h
        cases h
        exact ⟨rfl, by simp [hty], by simp [hty]⟩
      · rw [if_neg href] at h
        simp at h

theorem addColsLoop_ok_inv {recordType : String} {tables : List (String × Table)}
    {u : RecordSchema} :
    ∀ {tbl : Table} {seqNames : List String} {tbl' : Table} {seqNames' : List String},
    addColsLoop recordType tables tbl seqNames u = .ok (tbl', seqNames') →
    tbl'.columns = tbl.columns ++ colAdditions u ∧
    tbl'.fks = tbl.fks ++ fkAdditions u ∧
    seqNames' = seqNames ++ seqAdditions recordType u ∧
    ∀ p ∈ u, alistLookup tbl.columns p.1 = none := by
  induction u with
  | nil =>
    intro tbl seqNames tbl' seqNames' h
    simp only [addColsLoop] at h
    cases h
    simp [colAdditions, fkAdditions, seqAdditions]
  | cons q rest ih =>
    intro tbl seqNames tbl' seqNames' h
    obtain ⟨col, ft⟩ := q
    simp only [addColsLoop] at h
    cases hone : addOneCol recordType col ft tables tbl seqNames with
    | error e =>
      rw [hone] at h
      simp at h
    | ok pr =>
      obtain ⟨tbl2, seqNames2⟩ := pr
      rw [hone] at h
      simp only at h
      obtain ⟨hnone, hcols2, hfks2, hseqs2⟩ := addOneCol_ok_inv hone
      obtain ⟨hcols', hfks', hseqs', hrest⟩ := ih h
      refine ⟨?_, ?_, ?_, ?_⟩
      · rw [hcols', hcols2, colAdditions_cons, List.append_assoc]
        rfl
      · rw [hfks', hfks2, List.append_assoc, ← fkAdditions_cons]
      · rw [hseqs', hseqs2, List.append_assoc, ← seqAdditions_cons]
      · intro p hp
        rcases List.mem_cons.mp hp with hp | hp
        · subst hp
          exact hnone
        · have h2 := hrest p hp
          rw [hcols2] at h2
          cases hx : alistLookup tbl.columns p.1 with
          | none => rfl
          | some v =>
            rw [alistLookup_append_left hx] at h2
            simp at h2

theorem buildUpdating_ok_mem {remote : Option RecordSchema} {d : RecordSchema} :
    ∀ {acc u : RecordSchema}, buildUpdating remote acc d = .ok u →
    ∀ p ∈ d, optLookup remote p.1 = none ∨
      ∃ s, optLookup remote p.1 = some s ∧ isConflict s p.2 = false := by
  induction d with
  | nil =>
    intro acc u _ p hp
    simp at hp
  | cons q rest ih =>
    intro acc u h p hp
    obtain ⟨key, sch⟩ := q
    simp only [buildUpdating] at h
    cases hx : optLookup remote key with
    | none =>
      simp only [hx] at h
      rcases List.mem_cons.mp hp with hp | hp
      · subst hp
        left
        exact hx
      · exact ih h p hp
    | some r0 =>
      simp only [hx] at h
      by_cases hc : isConflict r0 sch = true
      · rw [if_pos hc] at h
        simp at h
      · rw [Bool.not_eq_true] at hc
        rw [if_neg (by simp [hc])] at h
        rcases List.mem_cons.mp hp with hp | hp
        · subst hp
          right
          exact ⟨r0, hx, hc⟩
        · exact ih h p hp

theorem buildUpdating_ok_val {remote : Option RecordSchema} {d : RecordSchema}
    (hnd : (d.map Prod.fst).Nodup) :
    ∀ {acc u : RecordSchema}, (∀ p ∈ d, alistLookup acc p.1 = none) →
    buildUpdating remote acc d = .ok u →
    u = acc ++ d.filter (fun p => (optLookup remote p.1).isNone) := by
  induction d with
  | nil =>
    intro acc u _ h
    simp only [buildUpdating] at h
    cases h
    simp
  | cons q rest ih =>
    intro acc u hdisj h
    obtain ⟨key, sch⟩ := q
    simp only [List.map_cons, List.nodup_cons] at hnd
    simp only [buildUpdating] at h
    cases hx : optLookup remote key with
    | none =>
      simp only [hx] at h
      have hacc : alistLookup acc key = none := hdisj (key, sch) (by simp)
      rw [alistInsert_of_none hacc] at h
      have hdisj' : ∀ p ∈ rest, alistLookup (acc ++ [(key, sch)]) p.1 = none := by
        intro p hp
        have hne : key ≠ p.1 := fun he => hnd.1 (he ▸ List.mem_map.mpr ⟨p, hp, rfl⟩)
        rw [alistLookup_append_right (hdisj p (by simp [hp]))]
        simp [alistLookup, hne]
      have hu := ih hnd.2 hdisj' h
      rw [hu, List.filter_cons]
      simp only [hx, Option.isNone_none]
      simp [List.append_assoc]
    | some r0 =>
      simp only [hx] at h
      by_cases hc : isConflict r0 sch = true
      · rw [if_pos hc] at h
        simp at h
      · rw [Bool.not_eq_true] at hc
        rw [if_neg (by simp [hc])] at h
        have hu := ih hnd.2 (fun p hp => hdisj p (by simp [hp])) h
        rw [hu, List.filter_cons]
        simp [hx]

theorem buildUpdating_allPresent {remote : Option RecordSchema} {d : RecordSchema}
    (h : ∀ p ∈ d, ∃ s, optLookup remote p.1 = some s ∧ isConflict s p.2 = false) :
    ∀ acc : RecordSchema, buildUpdating remote acc d = .ok acc := by
  induction d with
  | nil =>
    intro acc
    rfl
  | cons q rest ih =>
    intro acc
    obtain ⟨key, sch⟩ := q
    obtain ⟨s, hs, hc⟩ := h (key, sch) (by simp)
    simp only [buildUpdating, hs]
    rw [if_neg (by simp [hc])]
    exact ih (fun p hp => h p (by simp [hp])) acc

theorem buildUpdating_conflict {remote : Option RecordSchema} {d : RecordSchema}
    (hconf : ∃ p ∈ d, ∃ r, optLookup remote p.1 = some r ∧ isConflict r p.2 = true) :
    ∀ acc : RecordSchema, ∃ k r t, (k, t) ∈ d ∧ optLookup remote k = some r ∧
      isConflict r t = true ∧ buildUpdating remote acc d = .error (r, t) := by
  induction d with
  | nil => simp at hconf
  | cons q rest ih =>
    intro acc
    obtain ⟨key, sch⟩ := q
    cases hx : optLookup remote key with
    | none =>
      have hconf' : ∃ p ∈ rest, ∃ r, optLookup remote p.1 = some r ∧
          isConflict r p.2 = true := by
        obtain ⟨p, hp, r, hr, hc⟩ := hconf
        rcases List.mem_cons.mp hp with hp | hp
        · subst hp
          rw [hx] at hr
          cases hr
        · exact ⟨p, hp, r, hr, hc⟩
      obtain ⟨k, r, t, hmem, hlup, hc, hbu⟩ := ih hconf' (alistInsert acc key sch)
      refine ⟨k, r, t, by simp [hmem], hlup, hc, ?_⟩
      simp only [buildUpdating, hx]
      exact hbu
    | some r0 =>
      by_cases hc0 : isConflict r0 sch = true
      · refine ⟨key, r0, sch, by simp, hx, hc0, ?_⟩
        simp only [buildUpdating, hx]
        rw [if_pos hc0]
      · have hconf' : ∃ p ∈ rest, ∃ r, optLookup remote p.1 = some r ∧
            isConflict r p.2 = true := by
          obtain ⟨p, hp, r, hr, hc⟩ := hconf
          rcases List.mem_cons.mp hp with hp | hp
          · subst hp
            rw [hx] at hr
            injection hr with hr
            subst hr
            exact absurd hc hc0
          · exact ⟨p, hp, r, hr, hc⟩
        obtain ⟨k, r, t, hmem, hlup, hc, hbu⟩ := ih hconf' acc
        refine ⟨k, r, t, by simp [hmem], hlup, hc, ?_⟩
        simp only [buildUpdating, hx]
        rw [if_neg hc0]
        exact hbu

theorem execStmt_ok_inv {flt : Faults} {st : DBState} {stmt : String} {op : DDL}
    {st' : DBState} (h : execStmt flt st stmt op = (.ok (), st')) :
    execDDL st.phys op = .ok st'.phys ∧ st'.cache = st.cache ∧
      st'.trace = st.trace ++ [stmt] := by
  unfold execStmt at h
  by_cases hf : flt.execFail = true
  · simp [hf] at h
  · rw [Bool.not_eq_true] at hf
    simp only [hf, Bool.false_eq_true, if_false] at h
    cases hd : execDDL st.phys op with
    | error e =>
      rw [show ({ st with trace := st.trace ++ [stmt] } : DBState).phys = st.phys from rfl] at h
      rw [hd] at h
      simp at h
    | ok phys =>
      rw [show ({ st with trace := st.trace ++ [stmt] } : DBState).phys = st.phys from rfl] at h
      rw [hd] at h
      simp only at h
      cases h
      exact ⟨rfl, rfl, rfl⟩

theorem createTable_ok_inv {flt : Faults} {st : DBState} {rt : String} {st' : DBState}
    (h : createTable flt st rt = (.ok (), st')) :
    alistLookup st.phys.tables rt = none ∧
    st'.phys.tables = st.phys.tables ++ [(rt, ⟨reservedColumns, []⟩)] ∧
    st'.phys.seqs = st.phys.seqs ∧
    st'.cache = st.cache := by
  unfold createTable at h
  rcases h1 : execStmt flt st (createTableStmt (tableName rt)) (.createTable rt)
    with ⟨r1, st1⟩
  rw [h1] at h
  cases r1 with
  | error e => simp at h
  | ok u =>
    obtain ⟨⟩ := u
    obtain ⟨hd1, hc1, _⟩ := execStmt_ok_inv h1
    obtain ⟨hd2, hc2, _⟩ := execStmt_ok_inv h
    simp only [execDDL] at hd1
    by_cases htab : (alistLookup st.phys.tables rt).isSome = true
    · rw [if_pos htab] at hd1
      simp at hd1
    · rw [if_neg htab] at hd1
      have hnone : alistLookup st.phys.tables rt = none :=
        Option.not_isSome_iff_eq_none.mp (by simpa using htab)
      injection hd1 with hd1
      simp only [execDDL] at hd2
      have hlook : (alistLookup st1.phys.tables rt).isSome = true := by
        rw [← hd1]
        simp only []
        rw [alistLookup_append_right hnone]
        simp [alistLookup]
      rw [if_pos hlook] at hd2
      injection hd2 with hd2
      refine ⟨hnone, ?_, ?_, by rw [hc2, hc1]⟩
      · rw [← hd2, ← hd1]
      · rw [← hd2, ← hd1]

/-! Cache behaviour of the auxiliary schema operations. -/

theorem RenameSchema_cache (flt : Faults) (st : DBState) (rt a b : String) :
    ((RenameSchema flt st rt a b).2).cache = st.cache := by
  unfold RenameSchema
  rcases h1 : execStmt flt st ("ALTER TABLE " ++ tableName rt ++ " RENAME " ++
      quoteIdentifier a ++ " TO " ++ quoteIdentifier b) (.renameColumn rt a b) with ⟨r1, st1⟩
  have hc := execStmt_cache flt st ("ALTER TABLE " ++ tableName rt ++ " RENAME " ++
      quoteIdentifier a ++ " TO " ++ quoteIdentifier b) (.renameColumn rt a b)
  rw [h1] at hc
  simp only [h1]
  cases r1 <;> simpa using hc

theorem DeleteSchema_cache (flt : Faults) (st : DBState) (rt c : String) :
    ((DeleteSchema flt st rt c).2).cache = st.cache := by
  unfold DeleteSchema
  rcases h1 : execStmt flt st ("ALTER TABLE " ++ tableName rt ++ " DROP " ++
      quoteIdentifier c) (.dropColumn rt c) with ⟨r1, st1⟩
  have hc := execStmt_cache flt st ("ALTER TABLE " ++ tableName rt ++ " DROP " ++
      quoteIdentifier c) (.dropColumn rt c)
  rw [h1] at hc
  simp only [h1]
  cases r1 <;> simpa using hc

/-- C1 counterexample: at a concrete state with a cached schema for "note", RenameSchema succeeds (the physical column becomes "name"), yet the cache entry survives and a subsequent GetSchema still returns the stale schema mentioning "title" — refuting the claim that the mutation invalidates the cache entry. -/
theorem C1_counterexample :
    (RenameSchema noFaults
        ⟨⟨[("note", ⟨[("title", "text")], []⟩)], []⟩,
          [("note", [("title", ⟨.string, ""⟩)])], []⟩ "note" "title" "name").1 = .ok () ∧
    alistLookup ((RenameSchema noFaults
        ⟨⟨[("note", ⟨[("title", "text")], []⟩)], []⟩,
          [("note", [("title", ⟨.string, ""⟩)])], []⟩ "note" "title" "name").2).cache "note"
      = some [("title", ⟨.string, ""⟩)] ∧
    (GetSchema noFaults ((RenameSchema noFaults
        ⟨⟨[("note", ⟨[("title", "text")], []⟩)], []⟩,
          [("note", [("title", ⟨.string, ""⟩)])], []⟩ "note" "title" "name").2) "note").1
      = .ok (some [("title", ⟨.string, ""⟩)]) ∧
    alistLookup (((RenameSchema noFaults
        ⟨⟨[("note", ⟨[("title", "text")], []⟩)], []⟩,
          [("note", [("title", ⟨.string, ""⟩)])], []⟩ "note" "title" "name").2).phys.tables)
        "note" = some ⟨[("name", "text")], []⟩ := by
  refine ⟨by decide, by decide, by decide, by decide⟩

/-- C1 (amended): RenameSchema and DeleteSchema leave the Schema Cache untouched, so a subsequent GetSchema for a record type with a cached entry returns that prior cached schema rather than re-introspecting the new physical state. -/
theorem C1_no_cache_invalidation (flt flt' : Faults) (st : DBState) (rt a b c : String) :
    ((RenameSchema flt st rt a b).2).cache = st.cache ∧
    ((DeleteSchema flt st rt c).2).cache = st.cache ∧
    (∀ s : RecordSchema, alistLookup st.cache rt = some s →
      (GetSchema flt' ((RenameSchema flt st rt a b).2) rt).1 = .ok (some s)) := by
  refine ⟨RenameSchema_cache flt st rt a b, DeleteSchema_cache flt st rt c, ?_⟩
  intro s hs
  unfold GetSchema remoteColumnTypes
  rw [RenameSchema_cache flt st rt a b, hs]

/-- C1 witness: the amended theorem applied at a concrete cached state. -/
theorem C1_witness :
    (GetSchema noFaults ((RenameSchema noFaults
        ⟨⟨[("memo", ⟨[("title", "text")], []⟩)], []⟩,
          [("memo", [("title", ⟨.string, ""⟩)])], []⟩ "memo" "title" "name").2) "memo").1
      = .ok (some [("title", ⟨.string, ""⟩)]) :=
  (C1_no_cache_invalidation noFaults noFaults
    ⟨⟨[("memo", ⟨[("title", "text")], []⟩)], []⟩,
      [("memo", [("title", ⟨.string, ""⟩)])], []⟩ "memo" "title" "name" "x").2.2
    [("title", ⟨.string, ""⟩)] rfl

/-- C2 counterexample: at a concrete state with an empty cache, a failing oid lookup makes remoteColumnTypes return an error, yet the deferred write stores an (empty) schema entry for the record type — refuting the claim that a query failure does not populate the cache. -/
theorem C2_counterexample :
    (remoteColumnTypes ⟨true, false, false, false, false⟩
        ⟨⟨[("note", ⟨[("title", "text")], []⟩)], []⟩, [], []⟩ "note").1
      = .error (.queryFault "oid") ∧
    alistLookup ((remoteColumnTypes ⟨true, false, false, false, false⟩
        ⟨⟨[("note", ⟨[("title", "text")], []⟩)], []⟩, [], []⟩ "note").2).cache "note"
      = some [] := by
  refine ⟨by decide, by decide⟩

/-- C2 (amended): on a cache miss, when introspection returns an error the deferred write still stores the partially assembled typemap in the Schema Cache under the record type. -/
theorem C2_error_populates_cache (flt : Faults) (st : DBState) (rt : String) (e : PQError)
    (hcache : alistLookup st.cache rt = none)
    (herr : (remoteColumnTypes flt st rt).1 = .error e) :
    alistLookup ((remoteColumnTypes flt st rt).2).cache rt
      = some (remoteColumnTypesBody flt st.phys rt).2 := by
  unfold remoteColumnTypes
  simp only [hcache]
  simp [alistLookup_insert_self]

/-- C2 witness: the amended theorem applied at a concrete faulty state. -/
theorem C2_witness :
    alistLookup ((remoteColumnTypes ⟨true, false, false, false, false⟩
        ⟨⟨[], []⟩, [], []⟩ "note").2).cache "note"
      = some (remoteColumnTypesBody ⟨true, false, false, false, false⟩ ⟨[], []⟩ "note").2 :=
  C2_error_populates_cache ⟨true, false, false, false, false⟩ ⟨⟨[], []⟩, [], []⟩ "note"
    (.queryFault "oid") rfl rfl

/-- C3 counterexample: at a concrete state, Extend returns a schema-conflict error, yet the cache entry for the record type (stored by the introspection it ran) is still present when Extend returns — refuting the claim that the entry is dropped on every return path. -/
theorem C3_counterexample :
    (Extend noFaults ⟨⟨[("note", ⟨[("score", "text")], []⟩)], []⟩, [], []⟩ "note"
        [("score", ⟨.number, ""⟩)]).1
      = .error (.conflictingSchema ⟨.string, ""⟩ ⟨.number, ""⟩) ∧
    alistLookup ((Extend noFaults ⟨⟨[("note", ⟨[("score", "text")], []⟩)], []⟩, [], []⟩
        "note" [("score", ⟨.number, ""⟩)]).2).cache "note"
      = some [("score", ⟨.string, ""⟩)] := by
  refine ⟨by decide, by decide⟩

/-- C3 (amended): the Schema Cache entry for the record type is dropped exactly when Extend returns successfully; this theorem proves the success direction. -/
theorem C3_success_drops_cache (flt : Faults) (st : DBState) (rt : String)
    (d : RecordSchema) (h : (Extend flt st rt d).1 = .ok ()) :
    alistLookup ((Extend flt st rt d).2).cache rt = none := by
  revert h
  unfold Extend
  split
  · intro h
    simp at h
  · split
    · intro h
      simp at h
    · split
      · intro h
        simp at h
      · split
        · intro h
          simp at h
        · intro _
          simp [alistLookup_erase]

/-- C3 witness: a concrete successful Extend leaves no cache entry. -/
theorem C3_witness :
    alistLookup ((Extend noFaults ⟨⟨[("note", ⟨[("title", "text")], []⟩)], []⟩, [], []⟩
        "note" [("title", ⟨.string, ""⟩)]).2).cache "note" = none :=
  C3_success_drops_cache noFaults ⟨⟨[("note", ⟨[("title", "text")], []⟩)], []⟩, [], []⟩
    "note" [("title", ⟨.string, ""⟩)] (by decide)

/-- C8: for a record type whose table does not exist in the catalog (the oid lookup finds no row), introspection returns a nil schema and a nil error. -/
theorem C8_missing_table_not_error (flt : Faults) (st : DBState) (rt : String)
    (hcache : alistLookup st.cache rt = none)
    (htbl : alistLookup st.phys.tables rt = none)
    (hoid : flt.oidFail = false) :
    (remoteColumnTypes flt st rt).1 = .ok none := by
  unfold remoteColumnTypes
  simp only [hcache]
  unfold remoteColumnTypesBody
  simp [hoid, htbl]

/-- C8 witness: a concrete empty catalog. -/
theorem C8_witness :
    (remoteColumnTypes noFaults ⟨⟨[], []⟩, [], []⟩ "note").1 = .ok none :=
  C8_missing_table_not_error noFaults ⟨⟨[], []⟩, [], []⟩ "note" rfl rfl rfl

/-- C10: for a record type with no backing table, introspection returns nil but stores an empty schema in the cache, and any later call that finds a cache entry returns it with the state unchanged — regardless of faults and of the physical catalog, hence without issuing any catalog query — until some call invalidates the entry. -/
theorem C10_stale_empty_cache (flt : Faults) (st : DBState) (rt : String)
    (hcache : alistLookup st.cache rt = none)
    (htbl : alistLookup st.phys.tables rt = none)
    (hoid : flt.oidFail = false) :
    (remoteColumnTypes flt st rt).1 = .ok none ∧
    alistLookup ((remoteColumnTypes flt st rt).2).cache rt = some [] ∧
    ∀ (flt' : Faults) (st' : DBState) (s : RecordSchema),
      alistLookup st'.cache rt = some s →
      remoteColumnTypes flt' st' rt = (.ok (some s), st') := by
  refine ⟨?_, ?_, ?_⟩
  · unfold remoteColumnTypes
    simp only [hcache]
    unfold remoteColumnTypesBody
    simp [hoid, htbl]
  · unfold remoteColumnTypes
    simp only [hcache]
    have hb : (remoteColumnTypesBody flt st.phys rt).2 = [] := by
      unfold remoteColumnTypesBody
      simp [hoid, htbl]
    simp [hb, alistLookup_insert_self]
  · intro flt' st' s hs
    unfold remoteColumnTypes
    simp [hs]

/-- C10 witness: the theorem applied at a concrete empty catalog, with the cached-read part instantiated at the state the first call produced and at a catalog where the table now exists. -/
theorem C10_witness :
    (remoteColumnTypes noFaults ⟨⟨[], []⟩, [], []⟩ "note").1 = .ok none ∧
    remoteColumnTypes noFaults
        ⟨⟨[("note", ⟨[("title", "text")], []⟩)], []⟩, [("note", [])], []⟩ "note"
      = (.ok (some []),
          ⟨⟨[("note", ⟨[("title", "text")], []⟩)], []⟩, [("note", [])], []⟩) :=
  ⟨(C10_stale_empty_cache noFaults ⟨⟨[], []⟩, [], []⟩ "note" rfl rfl rfl).1,
    (C10_stale_empty_cache noFaults ⟨⟨[], []⟩, [], []⟩ "note" rfl rfl rfl).2.2 noFaults
      ⟨⟨[("note", ⟨[("title", "text")], []⟩)], []⟩, [("note", [])], []⟩ [] rfl⟩

/-! Foreign-key constraint naming. -/

theorem splitAtUnder : ∀ (a a' r r' : List Char), '_' ∉ a → '_' ∉ a' →
    a ++ '_' :: r = a' ++ '_' :: r' → a = a' ∧ r = r' := by
  intro a
  induction a with
  | nil =>
    intro a' r r' _ ha' h
    cases a' with
    | nil => simpa using h
    | cons x xs =>
      simp only [List.nil_append, List.cons_append, List.cons.injEq] at h
      exfalso
      apply ha'
      rw [← h.1]
      exact List.mem_cons_self _ _
  | cons y ys ih =>
    intro a' r r' ha ha' h
    cases a' with
    | nil =>
      simp only [List.nil_append, List.cons_append, List.cons.injEq] at h
      exfalso
      apply ha
      rw [h.1]
      exact List.mem_cons_self _ _
    | cons x xs =>
      simp only [List.cons_append, List.cons.injEq] at h
      obtain ⟨h1, h2⟩ := h
      have ha2 : '_' ∉ ys := fun hm => ha (List.mem_cons_of_mem _ hm)
      have ha2' : '_' ∉ xs := fun hm => ha' (List.mem_cons_of_mem _ hm)
      obtain ⟨he, hr⟩ := ih xs r r' ha2 ha2' h2
      exact ⟨by rw [h1, he], hr⟩

/-- C9 counterexample: two distinct (local column, referenced table, referenced column) triples that produce the same generated constraint name — refuting the claimed injectivity over all triples. -/
theorem C9_counterexample :
    fkConstraintName "x" "y_z" "w" = fkConstraintName "x_y" "z" "w" ∧
    ("x", "y_z", "w") ≠ (("x_y", "z", "w") : String × String × String) := by
  refine ⟨by decide, by decide⟩

/-- C9 (amended): the generated constraint name is a deterministic function of the triple, and it is injective over triples whose local column and referenced table contain no underscore; distinct triples can collide when those parts contain underscores. -/
theorem C9_fk_name_injective_no_underscore (a b c a' b' c' : String)
    (ha : '_' ∉ a.data) (hb : '_' ∉ b.data) (ha' : '_' ∉ a'.data) (hb' : '_' ∉ b'.data)
    (h : fkConstraintName a b c = fkConstraintName a' b' c') :
    a = a' ∧ b = b' ∧ c = c' := by
  have hdata : (fkConstraintName a b c).data = (fkConstraintName a' b' c').data :=
    congrArg String.data h
  unfold fkConstraintName at hdata
  simp only [sdata_append] at hdata
  simp only [List.append_assoc, List.singleton_append, List.cons_append,
    List.cons.injEq, true_and] at hdata
  obtain ⟨h1, h2⟩ := splitAtUnder a.data a'.data _ _ ha ha' hdata
  obtain ⟨h3, h4⟩ := splitAtUnder b.data b'.data _ _ hb hb' h2
  exact ⟨sdata_inj h1, sdata_inj h3, sdata_inj h4⟩

/-- C9 witness: the amended theorem applied at a concrete underscore-free pair of triples. -/
theorem C9_witness :
    ("col" : String) = "col" ∧ ("tab" : String) = "tab" ∧ ("_id" : String) = "_id" :=
  C9_fk_name_injective_no_underscore "col" "tab" "_id" "col" "tab" "_id"
    (by decide) (by decide) (by decide) (by decide) rfl

/-! C4: a schema conflict aborts Extend before any DDL reaches the database. -/

/-- C4: when the introspected remote schema gives some desired field a conflicting, non-number-compatible type, Extend returns a conflict error carrying the offending remote and desired FieldType, and the statement trace is unchanged — no CREATE TABLE and no ALTER TABLE reached the database in that call. -/
theorem C4_conflict_aborts_without_ddl (flt : Faults) (st : DBState) (rt : String)
    (d : RecordSchema) (remote : Option RecordSchema) (st1 : DBState)
    (hintro : remoteColumnTypes flt st rt = (.ok remote, st1))
    (hconf : ∃ p ∈ d, ∃ r, optLookup remote p.1 = some r ∧ isConflict r p.2 = true) :
    (∃ k r t, (k, t) ∈ d ∧ optLookup remote k = some r ∧ isConflict r t = true ∧
      (Extend flt st rt d).1 = .error (.conflictingSchema r t)) ∧
    ((Extend flt st rt d).2).trace = st.trace := by
  have hnz : (optLen remote == 0) = false := by
    obtain ⟨p, _, r, hr, _⟩ := hconf
    cases remote with
    | none => simp [optLookup] at hr
    | some m =>
      simp only [optLookup] at hr
      have hne := alistLookup_ne_nil hr
      simp only [optLen]
      simp [List.length_eq_zero, hne]
  obtain ⟨k, r, t, hmem, hlup, hc, hbu⟩ := buildUpdating_conflict hconf []
  have htrace : st1.trace = st.trace := by
    have hst := (remoteColumnTypes_state flt st rt).2
    rw [hintro] at hst
    exact hst
  have hext : Extend flt st rt d = (.error (.conflictingSchema r t), st1) := by
    unfold Extend
    simp only [hintro, hnz, Bool.false_eq_true, if_false, hbu]
  refine ⟨⟨k, r, t, hmem, hlup, hc, by rw [hext]⟩, by rw [hext]; exact htrace⟩

/-- C4 witness: the theorem applied at a concrete conflicting state, with the reported error and the unchanged trace made explicit. -/
theorem C4_witness :
    (Extend noFaults ⟨⟨[("task", ⟨[("score", "text")], []⟩)], []⟩, [], []⟩ "task"
        [("score", ⟨.number, ""⟩)]).1
      = .error (.conflictingSchema ⟨.string, ""⟩ ⟨.number, ""⟩) ∧
    ((Extend noFaults ⟨⟨[("task", ⟨[("score", "text")], []⟩)], []⟩, [], []⟩ "task"
        [("score", ⟨.number, ""⟩)]).2).trace = [] := by
  have h := C4_conflict_aborts_without_ddl noFaults
    ⟨⟨[("task", ⟨[("score", "text")], []⟩)], []⟩, [], []⟩ "task"
    [("score", ⟨.number, ""⟩)] (some [("score", ⟨.string, ""⟩)])
    ⟨⟨[("task", ⟨[("score", "text")], []⟩)], []⟩, [("task", [("score", ⟨.string, ""⟩)])], []⟩
    (by decide)
    ⟨("score", ⟨.number, ""⟩), by simp, ⟨.string, ""⟩, by decide, by decide⟩
  obtain ⟨⟨k, r, t, hmem, hlup, hc, herr⟩, htrace⟩ := h
  simp only [List.mem_singleton] at hmem
  injection hmem with hk ht
  subst hk
  subst ht
  simp only [optLookup, alistLookup] at hlup
  rw [if_pos (by decide)] at hlup
  injection hlup with hr
  subst hr
  exact ⟨herr, htrace⟩

/-! C6 and C7: classification of introspected columns. -/

/-- C6: in a successful fault-free introspection, every foreign-key constraint row (with pairwise-distinct referencing columns, as one column carries one constraint) classifies its referencing column as Asset with ReferenceType unset when the referenced table is _asset, and otherwise as Reference carrying the referenced table's name. -/
theorem C6_fk_classification (st : DBState) (rt : String) (tbl : Table) (R : RecordSchema)
    (hcache : alistLookup st.cache rt = none)
    (htbl : alistLookup st.phys.tables rt = some tbl)
    (hnd : (tbl.fks.map Prod.fst).Nodup)
    (hok : (remoteColumnTypes noFaults st rt).1 = .ok (some R))
    (col ref : String) (hmem : (col, ref) ∈ tbl.fks) :
    alistLookup R col =
      some (if ref = "_asset" then ⟨.asset, ""⟩ else ⟨.reference, ref⟩) := by
  have hbody : (remoteColumnTypesBody noFaults st.phys rt).1 = .ok (some R) := by
    unfold remoteColumnTypes at hok
    simp only [hcache] at hok
    exact hok
  have hlook := body_ok_lookup htbl hbody col
  rw [hlook]
  unfold introValue
  have hrev : alistLookup tbl.fks.reverse col = some ref := by
    apply alistLookup_of_mem_nodup
    · rw [List.map_reverse]
      exact List.nodup_reverse.mpr hnd
    · rw [List.mem_reverse]
      exact hmem
  simp only [hrev]
  unfold fkFieldType
  by_cases h : ref = "_asset" <;> simp [h]

/-- C6 witness: the theorem applied at a concrete table carrying one asset and one ordinary reference constraint. -/
theorem C6_witness :
    alistLookup [("pic", (⟨.asset, ""⟩ : FieldType)),
        ("cat", ⟨.reference, "collection"⟩)] "pic"
      = some (if "_asset" = "_asset" then (⟨.asset, ""⟩ : FieldType)
              else ⟨.reference, "_asset"⟩) ∧
    alistLookup [("pic", (⟨.asset, ""⟩ : FieldType)),
        ("cat", ⟨.reference, "collection"⟩)] "cat"
      = some (if "collection" = "_asset" then (⟨.asset, ""⟩ : FieldType)
              else ⟨.reference, "collection"⟩) :=
  ⟨C6_fk_classification
      ⟨⟨[("note", ⟨[("pic", "text"), ("cat", "text")],
          [("pic", "_asset"), ("cat", "collection")]⟩)], []⟩, [], []⟩ "note"
      ⟨[("pic", "text"), ("cat", "text")], [("pic", "_asset"), ("cat", "collection")]⟩
      [("pic", ⟨.asset, ""⟩), ("cat", ⟨.reference, "collection"⟩)]
      rfl rfl (by decide) (by decide) "pic" "_asset" (by decide),
    C6_fk_classification
      ⟨⟨[("note", ⟨[("pic", "text"), ("cat", "text")],
          [("pic", "_asset"), ("cat", "collection")]⟩)], []⟩, [], []⟩ "note"
      ⟨[("pic", "text"), ("cat", "text")], [("pic", "_asset"), ("cat", "collection")]⟩
      [("pic", ⟨.asset, ""⟩), ("cat", ⟨.reference, "collection"⟩)]
      rfl rfl (by decide) (by decide) "cat" "collection" (by decide)⟩

/-- C7: in a successful fault-free introspection of a table with distinct column names, a column of native integer type that carries no foreign key is classified Sequence exactly when a sequence object named recordType_column_seq exists, and stays Integer otherwise. -/
theorem C7_sequence_classification (st : DBState) (rt : String) (tbl : Table)
    (R : RecordSchema) (c : String)
    (hcache : alistLookup st.cache rt = none)
    (htbl : alistLookup st.phys.tables rt = some tbl)
    (hndcols : (tbl.columns.map Prod.fst).Nodup)
    (hok : (remoteColumnTypes noFaults st rt).1 = .ok (some R))
    (hcol : (c, TypeInteger) ∈ tbl.columns)
    (hnofk : alistLookup tbl.fks.reverse c = none) :
    alistLookup R c =
      some ⟨if (rt ++ "_" ++ c ++ "_seq") ∈ st.phys.seqs then .sequence else .integer,
        ""⟩ := by
  have hbody : (remoteColumnTypesBody noFaults st.phys rt).1 = .ok (some R) := by
    unfold remoteColumnTypes at hok
    simp only [hcache] at hok
    exact hok
  have hlook := body_ok_lookup htbl hbody c
  rw [hlook]
  unfold introValue
  simp only [hnofk]
  have hrev : alistLookup tbl.columns.reverse c = some TypeInteger := by
    apply alistLookup_of_mem_nodup
    · rw [List.map_reverse]
      exact List.nodup_reverse.mpr hndcols
    · rw [List.mem_reverse]
      exact hcol
  simp only [hrev]
  have hmap : mapNativeType c TypeInteger = .ok ⟨.integer, ""⟩ := rfl
  simp only [hmap]
  have hint : c ∈ (tbl.columns.filter (fun p => p.2 == TypeInteger)).map Prod.fst :=
    List.mem_map.mpr ⟨(c, TypeInteger), List.mem_filter.mpr ⟨hcol, by simp⟩, rfl⟩
  by_cases hseq : (rt ++ "_" ++ c ++ "_seq") ∈ st.phys.seqs
  · have hscl : c ∈ seqColumnList rt st.phys.seqs := (seqColumnList_mem _ _ _).mpr hseq
    rw [if_pos ⟨hint, hscl⟩, if_pos hseq]
  · have hscl : c ∉ seqColumnList rt st.phys.seqs :=
      fun hm => hseq ((seqColumnList_mem _ _ _).mp hm)
    rw [if_neg (fun hh => hscl hh.2), if_neg hseq]

/-- C7 witness: the theorem applied at a concrete table with two integer columns, one backed by a matching sequence and one not. -/
theorem C7_witness :
    alistLookup [("cnt", (⟨.sequence, ""⟩ : FieldType)), ("n2", ⟨.integer, ""⟩)] "cnt"
      = some ⟨if ("note" ++ "_" ++ "cnt" ++ "_seq") ∈ ["note_cnt_seq"] then .sequence
              else .integer, ""⟩ ∧
    alistLookup [("cnt", (⟨.sequence, ""⟩ : FieldType)), ("n2", ⟨.integer, ""⟩)] "n2"
      = some ⟨if ("note" ++ "_" ++ "n2" ++ "_seq") ∈ ["note_cnt_seq"] then .sequence
              else .integer, ""⟩ :=
  ⟨C7_sequence_classification
      ⟨⟨[("note", ⟨[("cnt", "integer"), ("n2", "integer")], []⟩)], ["note_cnt_seq"]⟩,
        [], []⟩ "note"
      ⟨[("cnt", "integer"), ("n2", "integer")], []⟩
      [("cnt", ⟨.sequence, ""⟩), ("n2", ⟨.integer, ""⟩)] "cnt"
      rfl rfl (by decide) (by decide) (by decide) rfl,
    C7_sequence_classification
      ⟨⟨[("note", ⟨[("cnt", "integer"), ("n2", "integer")], []⟩)], ["note_cnt_seq"]⟩,
        [], []⟩ "note"
      ⟨[("cnt", "integer"), ("n2", "integer")], []⟩
      [("cnt", ⟨.sequence, ""⟩), ("n2", ⟨.integer, ""⟩)] "n2"
      rfl rfl (by decide) (by decide) (by decide) rfl⟩

/-! Support lemmas for the idempotence of Extend. -/

theorem alistLookup_head {α : Type} (k : String) (v : α) (rest : List (String × α)) :
    alistLookup ((k, v) :: rest) k = some v := by
  simp [alistLookup]

theorem alistLookup_mem {α : Type} {m : List (String × α)} {k : String} {v : α}
    (h : alistLookup m k = some v) : (k, v) ∈ m := by
  induction m with
  | nil => simp [alistLookup] at h
  | cons p rest ih =>
    obtain ⟨k', v'⟩ := p
    by_cases hk : k' = k
    · subst hk
      rw [alistLookup_head] at h
      injection h with h
      rw [← h]
      exact List.mem_cons_self _ _
    · simp [alistLookup, hk] at h
      exact List.mem_cons_of_mem _ (ih h)

theorem alist_nodup_val_eq {α : Type} {m : List (String × α)}
    (hnd : (m.map Prod.fst).Nodup) {k : String} {v w : α}
    (h1 : (k, v) ∈ m) (h2 : (k, w) ∈ m) : v = w := by
  have e1 := alistLookup_of_mem_nodup hnd h1
  have e2 := alistLookup_of_mem_nodup hnd h2
  rw [e1] at e2
  exact Option.some.inj e2

theorem colAdditions_keys (u : RecordSchema) :
    (colAdditions u).map Prod.fst = u.map Prod.fst := by
  unfold colAdditions
  rw [List.map_map]
  rfl

theorem mem_colAdditions {u : RecordSchema} {k : String} {t : FieldType}
    (h : (k, t) ∈ u) : (k, physColType t.type) ∈ colAdditions u :=
  List.mem_map.mpr ⟨(k, t), h, rfl⟩

theorem mem_fkAdditions_inv {u : RecordSchema} {k ref : String}
    (h : (k, ref) ∈ fkAdditions u) :
    ∃ t, (k, t) ∈ u ∧
      ((t.type = .asset ∧ ref = "_asset") ∨
        (t.type = .reference ∧ ref = t.referenceType)) := by
  obtain ⟨q, hq, hf⟩ := List.mem_filterMap.mp h
  rcases q with ⟨k', t⟩
  cases hty : t.type <;> simp [hty] at hf
  · obtain ⟨h1, h2⟩ := hf
    subst h1
    exact ⟨t, hq, Or.inl ⟨hty, h2.symm⟩⟩
  · obtain ⟨h1, h2⟩ := hf
    subst h1
    exact ⟨t, hq, Or.inr ⟨hty, h2.symm⟩⟩

theorem fkAdditions_keys_mem {u : RecordSchema} {k : String}
    (h : k ∈ (fkAdditions u).map Prod.fst) : k ∈ u.map Prod.fst := by
  obtain ⟨p, hp, hk⟩ := List.mem_map.mp h
  rcases p with ⟨k', ref⟩
  subst hk
  obtain ⟨t, hmem, _⟩ := mem_fkAdditions_inv hp
  exact List.mem_map.mpr ⟨(k', t), hmem, rfl⟩

theorem fkAdditions_sublist_keys (u : RecordSchema) :
    ((fkAdditions u).map Prod.fst).Sublist (u.map Prod.fst) := by
  induction u with
  | nil => simp [fkAdditions]
  | cons p rest ih =>
    rw [fkAdditions_cons]
    rcases p with ⟨k, t⟩
    rw [List.map_append, List.map_cons]
    cases hty : t.type <;> simp only [fkAdditions, List.filterMap, hty] <;>
      first
        | exact (List.nil_append _ ▸ ih.cons k)
        | simpa using ih.cons₂ k

theorem mem_fkAdditions_asset {u : RecordSchema} {k : String} {t : FieldType}
    (hmem : (k, t) ∈ u) (hty : t.type = .asset) : (k, "_asset") ∈ fkAdditions u :=
  List.mem_filterMap.mpr ⟨(k, t), hmem, by simp [hty]⟩

theorem mem_fkAdditions_ref {u : RecordSchema} {k : String} {t : FieldType}
    (hmem : (k, t) ∈ u) (hty : t.type = .reference) :
    (k, t.referenceType) ∈ fkAdditions u :=
  List.mem_filterMap.mpr ⟨(k, t), hmem, by simp [hty]⟩

theorem seqColumnList_additions_sub (rt : String) (u : RecordSchema) :
    ∀ c ∈ seqColumnList rt (seqAdditions rt u), c ∈ u.map Prod.fst := by
  intro c hc
  have hname := (seqColumnList_mem rt c _).mp hc
  obtain ⟨p, hp, hf⟩ := List.mem_filterMap.mp hname
  by_cases hty : p.2.type = .sequence
  · rw [if_pos hty] at hf
    injection hf with hf
    have hpc : p.1 = c := by
      have h1 := seqName_trim rt p.1
      rw [hf] at h1
      rw [seqName_trim rt c] at h1
      exact h1.symm
    rw [← hpc]
    exact List.mem_map.mpr ⟨p, hp, rfl⟩
  · rw [if_neg hty] at hf
    cases hf

theorem mem_seqAdditions {rt : String} {u : RecordSchema} {k : String} {t : FieldType}
    (hmem : (k, t) ∈ u) (hty : t.type = .sequence) :
    (rt ++ "_" ++ k ++ "_seq") ∈ seqAdditions rt u :=
  List.mem_filterMap.mpr ⟨(k, t), hmem, by simp [hty]⟩

theorem mapNativeType_physColType (k : String) (t : DataType) :
    ∃ ft, mapNativeType k (physColType t) = .ok ft := by
  cases t <;> exact ⟨_, rfl⟩

theorem execDDL_addCols_inv {phys : PhysicalDB} {rt : String} {u : RecordSchema}
    {phys' : PhysicalDB} (h : execDDL phys (.addColumns rt u) = .ok phys') :
    ∃ tbl tbl', alistLookup phys.tables rt = some tbl ∧
      addColsLoop rt phys.tables tbl phys.seqs u = .ok (tbl', phys'.seqs) ∧
      phys'.tables = alistInsert phys.tables rt tbl' := by
  simp only [execDDL] at h
  cases htbl : alistLookup phys.tables rt with
  | none =>
    simp only [htbl] at h
    simp at h
  | some tbl =>
    simp only [htbl] at h
    cases hloop : addColsLoop rt phys.tables tbl phys.seqs u with
    | error e =>
      simp only [hloop] at h
      simp at h
    | ok pr =>
      obtain ⟨tbl', seqs'⟩ := pr
      simp only [hloop] at h
      injection h with h
      refine ⟨tbl, tbl', rfl, ?_, ?_⟩
      · rw [← h]
        exact hloop
      · rw [← h]

/-- Per-field condition under which a column created for the desired field introspects back to a compatible type: an ACL field must be the reserved _access column, a JSON field must not be, and a Reference field must not target the asset table. -/
def goodField (k : String) (t : FieldType) : Prop :=
  (t.type = .acl → k = "_access") ∧ (t.type = .json → k ≠ "_access") ∧
    (t.type = .reference → t.referenceType ≠ "_asset")

instance (k : String) (t : FieldType) : Decidable (goodField k t) := by
  unfold goodField
  infer_instance

theorem mem_filter_map_fst {cols : List (String × String)} {k : String}
    {p : (String × String) → Bool} (h : k ∈ (cols.filter p).map Prod.fst) :
    k ∈ cols.map Prod.fst := by
  obtain ⟨q, hq, hk⟩ := List.mem_map.mp h
  exact List.mem_map.mpr ⟨q, (List.mem_filter.mp hq).1, hk⟩

theorem introValue_old (rt : String) (seqs0 newSeqs : List String)
    (cols0 newCols fks0 newFks : List (String × String)) (k : String)
    (hkc : k ∉ newCols.map Prod.fst)
    (hkf : k ∉ newFks.map Prod.fst)
    (hks : ∀ s ∈ seqColumnList rt newSeqs, s ∈ newCols.map Prod.fst) :
    introValue rt (seqs0 ++ newSeqs) ⟨cols0 ++ newCols, fks0 ++ newFks⟩ k
      = introValue rt seqs0 ⟨cols0, fks0⟩ k := by
  unfold introValue
  have hfkr : alistLookup (fks0 ++ newFks).reverse k = alistLookup fks0.reverse k := by
    rw [List.reverse_append]
    rw [alistLookup_append_right]
    rw [alistLookup_eq_none_iff, List.map_reverse]
    intro hk
    exact hkf (List.mem_reverse.mp hk)
  simp only [hfkr]
  cases hf0 : alistLookup fks0.reverse k with
  | some ref => rfl
  | none =>
    have hcr : alistLookup (cols0 ++ newCols).reverse k = alistLookup cols0.reverse k := by
      rw [List.reverse_append]
      rw [alistLookup_append_right]
      rw [alistLookup_eq_none_iff, List.map_reverse]
      intro hk
      exact hkc (List.mem_reverse.mp hk)
    simp only [hcr]
    cases hc0 : alistLookup cols0.reverse k with
    | none => rfl
    | some ty =>
      cases hm : mapNativeType k ty with
      | error e => simp only [hm]
      | ok ft =>
        simp only [hm]
        have hcond : (k ∈ ((cols0 ++ newCols).filter
              (fun p => p.2 == TypeInteger)).map Prod.fst ∧
            k ∈ seqColumnList rt (seqs0 ++ newSeqs)) ↔
            (k ∈ (cols0.filter (fun p => p.2 == TypeInteger)).map Prod.fst ∧
            k ∈ seqColumnList rt seqs0) := by
          rw [List.filter_append, List.map_append, seqColumnList_append]
          constructor
          · rintro ⟨hi, hs⟩
            refine ⟨?_, ?_⟩
            · rcases List.mem_append.mp hi with hi | hi
              · exact hi
              · exact absurd (mem_filter_map_fst hi) hkc
            · rcases List.mem_append.mp hs with hs | hs
              · exact hs
              · exact absurd (hks k hs) hkc
          · rintro ⟨hi, hs⟩
            exact ⟨List.mem_append.mpr (Or.inl hi), List.mem_append.mpr (Or.inl hs)⟩
        rw [if_congr hcond rfl rfl]

theorem nonint_no_upgrade (cols0 : List (String × String)) (u : RecordSchema)
    (k : String) (t : FieldType) (hmem : (k, t) ∈ u)
    (hnd : (u.map Prod.fst).Nodup) (hkc : k ∉ cols0.map Prod.fst)
    (hne : physColType t.type ≠ TypeInteger) :
    k ∉ (((cols0 ++ colAdditions u).filter
      (fun p => p.2 == TypeInteger)).map Prod.fst) := by
  intro hi
  rw [List.filter_append, List.map_append] at hi
  rcases List.mem_append.mp hi with hi | hi
  · exact hkc (mem_filter_map_fst hi)
  · obtain ⟨q, hq, hqk⟩ := List.mem_map.mp hi
    obtain ⟨hqmem, hqty⟩ := List.mem_filter.mp hq
    rcases q with ⟨k1, ty1⟩
    simp only at hqk
    subst hqk
    have hndc : ((colAdditions u).map Prod.fst).Nodup := by
      rw [colAdditions_keys]
      exact hnd
    have := alist_nodup_val_eq hndc hqmem (mem_colAdditions hmem)
    rw [this] at hqty
    rw [beq_iff_eq] at hqty
    exact hne hqty

theorem introValue_new_nonfk (rt : String) (seqs0 : List String)
    (cols0 fks0 : List (String × String)) (u : RecordSchema) (k : String) (t : FieldType)
    (hmem : (k, t) ∈ u) (hnd : (u.map Prod.fst).Nodup)
    (hkc : k ∉ cols0.map Prod.fst) (hkf : k ∉ fks0.map Prod.fst)
    (hty1 : t.type ≠ .asset) (hty2 : t.type ≠ .reference) :
    ∀ {ft : FieldType}, mapNativeType k (physColType t.type) = .ok ft →
    introValue rt (seqs0 ++ seqAdditions rt u)
        ⟨cols0 ++ colAdditions u, fks0 ++ fkAdditions u⟩ k
      = some (if k ∈ (((cols0 ++ colAdditions u).filter
              (fun p => p.2 == TypeInteger)).map Prod.fst)
            ∧ k ∈ seqColumnList rt (seqs0 ++ seqAdditions rt u)
          then { ft with type := .sequence } else ft) := by
  intro ft hft
  unfold introValue
  have hnofk : k ∉ (fkAdditions u).map Prod.fst := by
    intro hk
    obtain ⟨p, hp, hpk⟩ := List.mem_map.mp hk
    rcases p with ⟨k1, ref⟩
    simp only at hpk
    subst hpk
    obtain ⟨t', hmem', hor⟩ := mem_fkAdditions_inv hp
    have hteq : t' = t := alist_nodup_val_eq hnd hmem' hmem
    subst hteq
    rcases hor with ⟨hh, _⟩ | ⟨hh, _⟩
    · exact hty1 hh
    · exact hty2 hh
  have hrevnone : alistLookup (fks0 ++ fkAdditions u).reverse k = none := by
    rw [List.reverse_append]
    rw [alistLookup_append_right]
    · rw [alistLookup_eq_none_iff, List.map_reverse]
      intro hk
      exact hkf (List.mem_reverse.mp hk)
    · rw [alistLookup_eq_none_iff, List.map_reverse]
      intro hk
      exact hnofk (List.mem_reverse.mp hk)
  simp only [hrevnone]
  have hndc : ((colAdditions u).map Prod.fst).Nodup := by
    rw [colAdditions_keys]
    exact hnd
  have hcrev : alistLookup (cols0 ++ colAdditions u).reverse k
      = some (physColType t.type) := by
    rw [List.reverse_append]
    exact alistLookup_append_left
      (alistLookup_of_mem_nodup
        (by rw [List.map_reverse]; exact List.nodup_reverse.mpr hndc)
        (List.mem_reverse.mpr (mem_colAdditions hmem))) _
  simp only [hcrev, hft]

theorem Extend_ok_inv {flt : Faults} {st : DBState} {rt : String} {d : RecordSchema}
    {st' : DBState} (h : Extend flt st rt d = (.ok (), st')) :
    ∃ remote st1 st2 upd,
      remoteColumnTypes flt st rt = (.ok remote, st1) ∧
      (((optLen remote == 0) = true ∧ createTable flt st1 rt = (.ok (), st2)) ∨
        ((optLen remote == 0) = false ∧ st2 = st1)) ∧
      buildUpdating remote [] d = .ok upd ∧
      ((upd.length > 0 ∧ ∃ st3,
          execStmt flt st2 (addColumnStmt rt upd) (.addColumns rt upd) = (.ok (), st3) ∧
          st' = { st3 with cache := alistErase st3.cache rt }) ∨
        (¬ upd.length > 0 ∧ st' = { st2 with cache := alistErase st2.cache rt })) := by
  revert h
  unfold Extend
  split
  · intro h
    simp at h
  · rename_i remote st1 heq1
    intro h
    split at h
    · rename_i e st2x heq2
      simp at h
    · rename_i a2 st2 heq2
      split at h
      · rename_i pr r dd
        simp at h
      · rename_i upd hupd
        split at h
        · rename_i e st3x heq3
          simp at h
        · rename_i a3 st3 heq3
          injection h with h1 h2
          refine ⟨remote, st1, st2, upd, heq1, ?_, hupd, ?_⟩
          · split at heq2
            · rename_i hz
              split at heq2
              · rename_i e st2y heq4
                simp at heq2
              · rename_i a4 st2y heq4
                injection heq2 with heq2a heq2b
                subst heq2b
                exact Or.inl ⟨by simpa using hz, heq4⟩
            · rename_i hz
              injection heq2 with heq2a heq2b
              subst heq2b
              refine Or.inr ⟨?_, rfl⟩
              rw [Bool.not_eq_true] at hz
              exact hz
          · split at heq3
            · rename_i hu
              split at heq3
              · rename_i e st3y heq5
                simp at heq3
              · rename_i a5 st3y heq5
                injection heq3 with heq3a heq3b
                subst heq3b
                exact Or.inl ⟨hu, _, heq5, h2.symm⟩
            · rename_i hu
              injection heq3 with heq3a heq3b
              subst heq3b
              exact Or.inr ⟨hu, h2.symm⟩

theorem introValue_new (rt : String) (seqs0 : List String)
    (cols0 fks0 : List (String × String)) (u : RecordSchema) (k : String) (t : FieldType)
    (hmem : (k, t) ∈ u) (hnd : (u.map Prod.fst).Nodup)
    (hkc : k ∉ cols0.map Prod.fst) (hkf : k ∉ fks0.map Prod.fst)
    (hgood : goodField k t) :
    ∃ ft, introValue rt (seqs0 ++ seqAdditions rt u)
        ⟨cols0 ++ colAdditions u, fks0 ++ fkAdditions u⟩ k = some ft ∧
      isConflict ft t = false := by
  have hndfk : ((fkAdditions u).map Prod.fst).Nodup :=
    List.Nodup.sublist (fkAdditions_sublist_keys u) hnd
  cases hty : t.type
  · -- string
    have hft : mapNativeType k (physColType t.type) = .ok ⟨.string, ""⟩ := by
      rw [hty]
      rfl
    have hres := introValue_new_nonfk rt seqs0 cols0 fks0 u k t hmem hnd hkc hkf
      (by simp [hty]) (by simp [hty]) hft
    have hcnd := nonint_no_upgrade cols0 u k t hmem hnd hkc (by rw [hty]; decide)
    refine ⟨⟨.string, ""⟩, ?_, by simp [isConflict, hty]⟩
    rw [hres, if_neg (fun hh => hcnd hh.1)]
  · -- number
    have hft : mapNativeType k (physColType t.type) = .ok ⟨.number, ""⟩ := by
      rw [hty]
      rfl
    have hres := introValue_new_nonfk rt seqs0 cols0 fks0 u k t hmem hnd hkc hkf
      (by simp [hty]) (by simp [hty]) hft
    have hcnd := nonint_no_upgrade cols0 u k t hmem hnd hkc (by rw [hty]; decide)
    refine ⟨⟨.number, ""⟩, ?_, by simp [isConflict, hty]⟩
    rw [hres, if_neg (fun hh => hcnd hh.1)]
  · -- boolean
    have hft : mapNativeType k (physColType t.type) = .ok ⟨.boolean, ""⟩ := by
      rw [hty]
      rfl
    have hres := introValue_new_nonfk rt seqs0 cols0 fks0 u k t hmem hnd hkc hkf
      (by simp [hty]) (by simp [hty]) hft
    have hcnd := nonint_no_upgrade cols0 u k t hmem hnd hkc (by rw [hty]; decide)
    refine ⟨⟨.boolean, ""⟩, ?_, by simp [isConflict, hty]⟩
    rw [hres, if_neg (fun hh => hcnd hh.1)]
  · -- json
    have hne := hgood.2.1 hty
    have hbeq : (k == "_access") = false := by
      simp [hne]
    have hft : mapNativeType k (physColType t.type) = .ok ⟨.json, ""⟩ := by
      rw [hty]
      unfold mapNativeType
      simp [physColType, pqDataType, TypeJSON, TypeString, TypeNumber, TypeTimestamp,
        TypeBoolean, TypeLocation, TypeInteger, hbeq]
    have hres := introValue_new_nonfk rt seqs0 cols0 fks0 u k t hmem hnd hkc hkf
      (by simp [hty]) (by simp [hty]) hft
    have hcnd := nonint_no_upgrade cols0 u k t hmem hnd hkc (by rw [hty]; decide)
    refine ⟨⟨.json, ""⟩, ?_, by simp [isConflict, hty]⟩
    rw [hres, if_neg (fun hh => hcnd hh.1)]
  · -- acl
    have hacc := hgood.1 hty
    subst hacc
    have hft : mapNativeType "_access" (physColType t.type) = .ok ⟨.acl, ""⟩ := by
      rw [hty]
      rfl
    have hres := introValue_new_nonfk rt seqs0 cols0 fks0 u "_access" t hmem hnd hkc hkf
      (by simp [hty]) (by simp [hty]) hft
    have hcnd := nonint_no_upgrade cols0 u "_access" t hmem hnd hkc (by rw [hty]; decide)
    refine ⟨⟨.acl, ""⟩, ?_, by simp [isConflict, hty]⟩
    rw [hres, if_neg (fun hh => hcnd hh.1)]
  · -- dateTime
    have hft : mapNativeType k (physColType t.type) = .ok ⟨.dateTime, ""⟩ := by
      rw [hty]
      rfl
    have hres := introValue_new_nonfk rt seqs0 cols0 fks0 u k t hmem hnd hkc hkf
      (by simp [hty]) (by simp [hty]) hft
    have hcnd := nonint_no_upgrade cols0 u k t hmem hnd hkc (by rw [hty]; decide)
    refine ⟨⟨.dateTime, ""⟩, ?_, by simp [isConflict, hty]⟩
    rw [hres, if_neg (fun hh => hcnd hh.1)]
  · -- location
    have hft : mapNativeType k (physColType t.type) = .ok ⟨.location, ""⟩ := by
      rw [hty]
      rfl
    have hres := introValue_new_nonfk rt seqs0 cols0 fks0 u k t hmem hnd hkc hkf
      (by simp [hty]) (by simp [hty]) hft
    have hcnd := nonint_no_upgrade cols0 u k t hmem hnd hkc (by rw [hty]; decide)
    refine ⟨⟨.location, ""⟩, ?_, by simp [isConflict, hty]⟩
    rw [hres, if_neg (fun hh => hcnd hh.1)]
  · -- sequence
    have hft : mapNativeType k (physColType t.type) = .ok ⟨.integer, ""⟩ := by
      rw [hty]
      rfl
    have hres := introValue_new_nonfk rt seqs0 cols0 fks0 u k t hmem hnd hkc hkf
      (by simp [hty]) (by simp [hty]) hft
    have hint : k ∈ (((cols0 ++ colAdditions u).filter
        (fun p => p.2 == TypeInteger)).map Prod.fst) := by
      rw [List.filter_append, List.map_append]
      refine List.mem_append.mpr (Or.inr ?_)
      refine List.mem_map.mpr ⟨(k, physColType t.type),
        List.mem_filter.mpr ⟨mem_colAdditions hmem, ?_⟩, rfl⟩
      rw [hty]
      rfl
    have hscl : k ∈ seqColumnList rt (seqs0 ++ seqAdditions rt u) := by
      rw [seqColumnList_append]
      exact List.mem_append.mpr
        (Or.inr ((seqColumnList_mem rt k _).mpr (mem_seqAdditions hmem hty)))
    refine ⟨⟨.sequence, ""⟩, ?_, by simp [isConflict, hty]⟩
    rw [hres, if_pos ⟨hint, hscl⟩]
  · -- integer
    have hft : mapNativeType k (physColType t.type) = .ok ⟨.integer, ""⟩ := by
      rw [hty]
      rfl
    have hres := introValue_new_nonfk rt seqs0 cols0 fks0 u k t hmem hnd hkc hkf
      (by simp [hty]) (by simp [hty]) hft
    by_cases hcond : (k ∈ (((cols0 ++ colAdditions u).filter
          (fun p => p.2 == TypeInteger)).map Prod.fst)
        ∧ k ∈ seqColumnList rt (seqs0 ++ seqAdditions rt u))
    · refine ⟨⟨.sequence, ""⟩, ?_, by simp [isConflict, hty, isNumberCompatibleType]⟩
      rw [hres, if_pos hcond]
    · refine ⟨⟨.integer, ""⟩, ?_, by simp [isConflict, hty]⟩
      rw [hres, if_neg hcond]
  · -- asset
    have hin : (k, "_asset") ∈ fkAdditions u := mem_fkAdditions_asset hmem hty
    have hrev : alistLookup (fks0 ++ fkAdditions u).reverse k = some "_asset" := by
      rw [List.reverse_append]
      exact alistLookup_append_left
        (alistLookup_of_mem_nodup
          (by rw [List.map_reverse]; exact List.nodup_reverse.mpr hndfk)
          (List.mem_reverse.mpr hin)) _
    refine ⟨⟨.asset, ""⟩, ?_, by simp [isConflict, hty]⟩
    unfold introValue
    simp only [hrev]
    simp [fkFieldType]
  · -- reference
    have hne := hgood.2.2 hty
    have hin : (k, t.referenceType) ∈ fkAdditions u := mem_fkAdditions_ref hmem hty
    have hrev : alistLookup (fks0 ++ fkAdditions u).reverse k
        = some t.referenceType := by
      rw [List.reverse_append]
      exact alistLookup_append_left
        (alistLookup_of_mem_nodup
          (by rw [List.map_reverse]; exact List.nodup_reverse.mpr hndfk)
          (List.mem_reverse.mpr hin)) _
    refine ⟨⟨.reference, t.referenceType⟩, ?_, by simp [isConflict, hty]⟩
    unfold introValue
    simp only [hrev]
    simp [fkFieldType, hne]

theorem introValue_reserved_id (rt : String) (seqs : List String) :
    introValue rt seqs ⟨reservedColumns, []⟩ "_id" = some ⟨.string, ""⟩ := by
  unfold introValue
  simp [reservedColumns, alistLookup, mapNativeType, TypeString, TypeInteger]

theorem introValue_none_fk {rt : String} {seqs : List String} {tbl : Table} {k : String}
    (h : introValue rt seqs tbl k = none) :
    alistLookup tbl.fks.reverse k = none := by
  unfold introValue at h
  cases hfk : alistLookup tbl.fks.reverse k with
  | none => rfl
  | some ref =>
    simp only [hfk] at h
    cases h

theorem secondExtend_ok (stf : DBState) (rt : String) (d : RecordSchema)
    (R1 : RecordSchema)
    (hcachef : alistLookup stf.cache rt = none)
    (hbody1 : remoteColumnTypesBody noFaults stf.phys rt = (.ok (some R1), R1))
    (hR1ne : R1 ≠ [])
    (hall : ∀ p ∈ d, ∃ s, alistLookup R1 p.1 = some s ∧ isConflict s p.2 = false) :
    (Extend noFaults stf rt d).1 = .ok () ∧
      ((Extend noFaults stf rt d).2).trace = stf.trace := by
  have hrc2 : remoteColumnTypes noFaults stf rt
      = (.ok (some R1), { stf with cache := alistInsert stf.cache rt R1 }) := by
    unfold remoteColumnTypes
    rw [hcachef]
    simp only [hbody1]
  have hnz : (optLen (some R1) == 0) = false := by
    rw [beq_eq_false_iff_ne]
    simp only [optLen]
    exact fun h => hR1ne (List.length_eq_zero.mp h)
  have hbu : buildUpdating (some R1) [] d = .ok [] :=
    buildUpdating_allPresent (fun p hp => by
      obtain ⟨s, hs, hc⟩ := hall p hp
      exact ⟨s, hs, hc⟩) []
  have hext : Extend noFaults stf rt d = (.ok (),
      { stf with cache := alistErase (alistInsert stf.cache rt R1) rt }) := by
    unfold Extend
    simp only [hrc2, hnz, Bool.false_eq_true, if_false, hbu]
    rw [if_neg (by simp)]
  rw [hext]
  exact ⟨rfl, rfl⟩

theorem extendAgain_ok (stf : DBState) (rt : String) (d : RecordSchema) (tbl1 : Table)
    (hcachef : alistLookup stf.cache rt = none)
    (htbl1 : alistLookup stf.phys.tables rt = some tbl1)
    (hscan1 : ∀ p ∈ tbl1.columns, ∃ ft, mapNativeType p.1 p.2 = .ok ft)
    (hall1 : ∀ p ∈ d, ∃ s, introValue rt stf.phys.seqs tbl1 p.1 = some s ∧
      isConflict s p.2 = false)
    (hwit : ∃ k0 s0, introValue rt stf.phys.seqs tbl1 k0 = some s0) :
    (Extend noFaults stf rt d).1 = .ok () ∧
      ((Extend noFaults stf rt d).2).trace = stf.trace := by
  have hs1 : (scanLoop [] [] tbl1.columns).1 = none :=
    scanLoop_none_of_all _ [] [] hscan1
  rcases hsc : scanLoop [] [] tbl1.columns with ⟨e1, tm1, ints1⟩
  rw [hsc] at hs1
  cases e1 with
  | some e =>
    cases hs1
  | none =>
    have hbody1 := body_noFaults_eq stf.phys rt tbl1 tm1 ints1 htbl1 hsc
    have hok1 : (remoteColumnTypesBody noFaults stf.phys rt).1
        = .ok (some (applyFKLoop
            (if ints1.length > 0
              then applySeqLoop (seqColumnList rt stf.phys.seqs) tm1 ints1 else tm1)
            tbl1.fks)) := by
      rw [hbody1]
    have hlookup := body_ok_lookup htbl1 hok1
    obtain ⟨k0, s0, hk0⟩ := hwit
    have hlk0 := hlookup k0
    rw [hk0] at hlk0
    have hne : applyFKLoop
        (if ints1.length > 0
          then applySeqLoop (seqColumnList rt stf.phys.seqs) tm1 ints1 else tm1)
        tbl1.fks ≠ [] := by
      intro h
      rw [h] at hlk0
      cases hlk0
    refine secondExtend_ok stf rt d _ hcachef hbody1 hne ?_
    intro p hp
    obtain ⟨s, hs, hc⟩ := hall1 p hp
    refine ⟨s, ?_, hc⟩
    rw [hlookup p.1, hs]

theorem alter_step {st2 stf : DBState} {rt : String} {u : RecordSchema}
    {cols0 fks0 : List (String × String)}
    (htbl0 : alistLookup st2.phys.tables rt = some ⟨cols0, fks0⟩)
    (halter : (u.length > 0 ∧ ∃ st3,
        execStmt noFaults st2 (addColumnStmt rt u) (.addColumns rt u) = (.ok (), st3) ∧
        stf = { st3 with cache := alistErase st3.cache rt }) ∨
      (¬ u.length > 0 ∧ stf = { st2 with cache := alistErase st2.cache rt })) :
    ∃ tbl1 : Table,
      alistLookup stf.cache rt = none ∧
      alistLookup stf.phys.tables rt = some tbl1 ∧
      tbl1.columns = cols0 ++ colAdditions u ∧
      tbl1.fks = fks0 ++ fkAdditions u ∧
      stf.phys.seqs = st2.phys.seqs ++ seqAdditions rt u ∧
      (∀ p ∈ u, alistLookup cols0 p.1 = none) := by
  rcases halter with ⟨hu, st3, hexec, hstf⟩ | ⟨hu, hstf⟩
  · obtain ⟨hddl, hc3, ht3⟩ := execStmt_ok_inv hexec
    obtain ⟨tbl, tbl', htbla, hloop, htbls⟩ := execDDL_addCols_inv hddl
    rw [htbl0] at htbla
    injection htbla with htbla
    subst htbla
    obtain ⟨hcols', hfks', hseqs', hfreshc⟩ := addColsLoop_ok_inv hloop
    subst hstf
    refine ⟨tbl', ?_, ?_, hcols', hfks', hseqs', hfreshc⟩
    · show alistLookup (alistErase st3.cache rt) rt = none
      rw [alistLookup_erase, if_pos rfl]
    · show alistLookup st3.phys.tables rt = some tbl'
      rw [htbls]
      exact alistLookup_insert_self _ _ _
  · have hunil : u = [] := by
      rcases u with _ | ⟨q, rest⟩
      · rfl
      · exact absurd (by simp) hu
    subst hunil
    subst hstf
    refine ⟨⟨cols0, fks0⟩, ?_, htbl0, by simp [colAdditions], by simp [fkAdditions],
      by simp [seqAdditions], by simp⟩
    show alistLookup (alistErase st2.cache rt) rt = none
    rw [alistLookup_erase, if_pos rfl]

theorem extend_base_ready (st2 stf : DBState) (rt : String) (d u : RecordSchema)
    (remote : Option RecordSchema)
    (cols0 fks0 : List (String × String)) (tbl1 : Table)
    (hcachef : alistLookup stf.cache rt = none)
    (htbl1 : alistLookup stf.phys.tables rt = some tbl1)
    (hcols1 : tbl1.columns = cols0 ++ colAdditions u)
    (hfks1 : tbl1.fks = fks0 ++ fkAdditions u)
    (hseqs1 : stf.phys.seqs = st2.phys.seqs ++ seqAdditions rt u)
    (hscan0 : ∀ p ∈ cols0, ∃ ft, mapNativeType p.1 p.2 = .ok ft)
    (hnd_u : (u.map Prod.fst).Nodup)
    (hgood : ∀ p ∈ d, goodField p.1 p.2)
    (hmem_u : ∀ p ∈ d, optLookup remote p.1 = none → p ∈ u)
    (hnon_u : ∀ k, k ∈ u.map Prod.fst → optLookup remote k = none)
    (hfreshc : ∀ p ∈ u, alistLookup cols0 p.1 = none)
    (hfreshf : ∀ p ∈ u, p.1 ∉ fks0.map Prod.fst)
    (hconf : ∀ p ∈ d, ∀ s, optLookup remote p.1 = some s → isConflict s p.2 = false)
    (hold0 : ∀ k s, optLookup remote k = some s →
      introValue rt st2.phys.seqs ⟨cols0, fks0⟩ k = some s)
    (hwit0 : ∃ k0 s0, introValue rt st2.phys.seqs ⟨cols0, fks0⟩ k0 = some s0 ∧
      k0 ∉ u.map Prod.fst) :
    (Extend noFaults stf rt d).1 = .ok () ∧
      ((Extend noFaults stf rt d).2).trace = stf.trace := by
  obtain ⟨tcols, tfks⟩ := tbl1
  replace hcols1 : tcols = cols0 ++ colAdditions u := hcols1
  replace hfks1 : tfks = fks0 ++ fkAdditions u := hfks1
  subst hcols1
  subst hfks1
  have hold_red : ∀ k, k ∉ u.map Prod.fst →
      introValue rt stf.phys.seqs ⟨cols0 ++ colAdditions u, fks0 ++ fkAdditions u⟩ k
        = introValue rt st2.phys.seqs ⟨cols0, fks0⟩ k := by
    intro k hk
    rw [hseqs1]
    exact introValue_old rt st2.phys.seqs (seqAdditions rt u) cols0 (colAdditions u)
      fks0 (fkAdditions u) k
      (by rw [colAdditions_keys]; exact hk)
      (fun hm => hk (fkAdditions_keys_mem hm))
      (fun s hs => by rw [colAdditions_keys]; exact seqColumnList_additions_sub rt u s hs)
  have hscan1 : ∀ p ∈ cols0 ++ colAdditions u, ∃ ft, mapNativeType p.1 p.2 = .ok ft := by
    intro p hp
    rcases List.mem_append.mp hp with hp | hp
    · exact hscan0 p hp
    · obtain ⟨q, hq, hpq⟩ := List.mem_map.mp hp
      rw [← hpq]
      exact mapNativeType_physColType q.1 q.2.type
  have hall1 : ∀ p ∈ d, ∃ s,
      introValue rt stf.phys.seqs ⟨cols0 ++ colAdditions u, fks0 ++ fkAdditions u⟩ p.1
        = some s ∧ isConflict s p.2 = false := by
    intro p hp
    obtain ⟨k, t⟩ := p
    cases hx : optLookup remote k with
    | none =>
      have hku : (k, t) ∈ u := hmem_u (k, t) hp hx
      have hkc : k ∉ cols0.map Prod.fst :=
        (alistLookup_eq_none_iff cols0 k).mp (hfreshc (k, t) hku)
      obtain ⟨ft, hft, hc⟩ := introValue_new rt st2.phys.seqs cols0 fks0 u k t
        hku hnd_u hkc (hfreshf (k, t) hku) (hgood (k, t) hp)
      refine ⟨ft, ?_, hc⟩
      rw [hseqs1]
      exact hft
    | some s =>
      refine ⟨s, ?_, hconf (k, t) hp s hx⟩
      have hknu : k ∉ u.map Prod.fst := by
        intro hk
        rw [hnon_u k hk] at hx
        cases hx
      rw [hold_red k hknu]
      exact hold0 k s hx
  have hwit1 : ∃ k0 s0,
      introValue rt stf.phys.seqs ⟨cols0 ++ colAdditions u, fks0 ++ fkAdditions u⟩ k0
        = some s0 := by
    obtain ⟨k0, s0, hk0, hknu⟩ := hwit0
    exact ⟨k0, s0, by rw [hold_red k0 hknu]; exact hk0⟩
  exact extendAgain_ok stf rt d _ hcachef htbl1 hscan1 hall1 hwit1

/-- C5: Extend is idempotent only under side conditions the claim omits: starting from a state with no Schema Cache entry for the record type, with pairwise-distinct desired field names each satisfying the introspection round-trip condition (an ACL field named _access, JSON fields not named _access, Reference fields not targeting _asset), a successful fault-free Extend followed by the same Extend succeeds again and issues no DDL statement (the execution trace is unchanged by the second call). -/
theorem C5_extend_idempotent (st : DBState) (rt : String) (d : RecordSchema)
    (hcache : alistLookup st.cache rt = none)
    (hnd : (d.map Prod.fst).Nodup)
    (hgood : ∀ p ∈ d, goodField p.1 p.2)
    (h1 : (Extend noFaults st rt d).1 = .ok ()) :
    (Extend noFaults (Extend noFaults st rt d).2 rt d).1 = .ok () ∧
    ((Extend noFaults (Extend noFaults st rt d).2 rt d).2).trace
      = ((Extend noFaults st rt d).2).trace := by
  rcases hEp : Extend noFaults st rt d with ⟨res1, stf⟩
  rw [hEp] at h1
  cases res1 with
  | error e => simp at h1
  | ok uu =>
    obtain ⟨⟩ := uu
    show (Extend noFaults stf rt d).1 = .ok () ∧
      (Extend noFaults stf rt d).2.trace = stf.trace
    obtain ⟨remote, st1, st2, u, heq1, hcreate, hbu, halter⟩ := Extend_ok_inv hEp
    have hrc_eq : remoteColumnTypes noFaults st rt
        = ((remoteColumnTypesBody noFaults st.phys rt).1,
           { st with cache :=
              alistInsert st.cache rt (remoteColumnTypesBody noFaults st.phys rt).2 }) := by
      unfold remoteColumnTypes
      rw [hcache]
    rw [hrc_eq] at heq1
    have heq1a : (remoteColumnTypesBody noFaults st.phys rt).1 = .ok remote :=
      congrArg Prod.fst heq1
    have hphys1 : st1.phys = st.phys :=
      (congrArg (fun x => x.2.phys) heq1).symm
    have hu_val : u = d.filter (fun p => (optLookup remote p.1).isNone) := by
      have h := buildUpdating_ok_val hnd
        (show ∀ p ∈ d, alistLookup ([] : RecordSchema) p.1 = none from fun p _ => rfl) hbu
      simpa using h
    have hu_sub : ∀ p ∈ u, p ∈ d ∧ optLookup remote p.1 = none := by
      intro p hp
      rw [hu_val] at hp
      have h2 := List.mem_filter.mp hp
      exact ⟨h2.1, by simpa using h2.2⟩
    have hmem_u : ∀ p ∈ d, optLookup remote p.1 = none → p ∈ u := by
      intro p hp hnone
      rw [hu_val]
      exact List.mem_filter.mpr ⟨hp, by simp [hnone]⟩
    have hnd_u : (u.map Prod.fst).Nodup := by
      rw [hu_val]
      exact List.Nodup.sublist (List.Sublist.map _ (List.filter_sublist d)) hnd
    have hnon_u : ∀ k, k ∈ u.map Prod.fst → optLookup remote k = none := by
      intro k hk
      obtain ⟨p, hp, hpk⟩ := List.mem_map.mp hk
      rw [← hpk]
      exact (hu_sub p hp).2
    have hconf : ∀ p ∈ d, ∀ s, optLookup remote p.1 = some s →
        isConflict s p.2 = false := by
      intro p hp s hs
      rcases buildUpdating_ok_mem hbu p hp with hno | ⟨s', hs', hc⟩
      · rw [hno] at hs
        cases hs
      · rw [hs'] at hs
        injection hs with hss
        rw [← hss]
        exact hc
    rcases hcreate with ⟨hz, hct⟩ | ⟨hz, hst2⟩
    · obtain ⟨hno, htabs2, hseqs2, hcache2⟩ := createTable_ok_inv hct
      have hno' : alistLookup st.phys.tables rt = none := by
        rw [← hphys1]
        exact hno
      have hremote : remote = none := by
        cases hrem : remote with
        | none => rfl
        | some R0 =>
          rw [hrem] at heq1a
          obtain ⟨tbl0, tm0, ints0, htbl0, hscn, hR0⟩ := body_ok_inv heq1a
          rw [hno'] at htbl0
          cases htbl0
      subst hremote
      have htbl0 : alistLookup st2.phys.tables rt = some ⟨reservedColumns, []⟩ := by
        rw [htabs2, alistLookup_append_right hno]
        exact alistLookup_head _ _ _
      obtain ⟨tbl1, hcachef, htbl1, hcols1, hfks1, hseqs1, hfreshc⟩ :=
        alter_step htbl0 halter
      refine extend_base_ready st2 stf rt d u none reservedColumns [] tbl1
        hcachef htbl1 hcols1 hfks1 hseqs1 ?_ hnd_u hgood hmem_u hnon_u hfreshc
        (fun p _ => by simp) hconf (fun k s hs => by simp [optLookup] at hs) ?_
      · intro p hp
        fin_cases hp <;> exact ⟨_, rfl⟩
      · refine ⟨"_id", ⟨.string, ""⟩, introValue_reserved_id rt st2.phys.seqs, ?_⟩
        intro hk
        obtain ⟨p, hp, hpk⟩ := List.mem_map.mp hk
        have hf := hfreshc p hp
        rw [hpk] at hf
        rw [show alistLookup reservedColumns "_id" = some "text" from rfl] at hf
        cases hf
    · subst hst2
      cases remote with
      | none =>
        simp [optLen] at hz
      | some R0 =>
        obtain ⟨tbl0, tm0, ints0, htbl0, hscn, hR0⟩ := body_ok_inv heq1a
        obtain ⟨cols0, fks0⟩ := tbl0
        have hlookR0 : ∀ k, alistLookup R0 k
            = introValue rt st.phys.seqs ⟨cols0, fks0⟩ k :=
          body_ok_lookup htbl0 heq1a
        have htbl0' : alistLookup st2.phys.tables rt = some ⟨cols0, fks0⟩ := by
          rw [hphys1]
          exact htbl0
        obtain ⟨tbl1, hcachef, htbl1, hcols1, hfks1, hseqs1, hfreshc⟩ :=
          alter_step htbl0' halter
        have hold0 : ∀ k s, optLookup (some R0) k = some s →
            introValue rt st2.phys.seqs ⟨cols0, fks0⟩ k = some s := by
          intro k s hs
          rw [hphys1, ← hlookR0 k]
          exact hs
        have hfreshf : ∀ p ∈ u, p.1 ∉ fks0.map Prod.fst := by
          intro p hp hin
          have hnone : optLookup (some R0) p.1 = none :=
            hnon_u p.1 (List.mem_map.mpr ⟨p, hp, rfl⟩)
          have hiv : introValue rt st.phys.seqs ⟨cols0, fks0⟩ p.1 = none := by
            rw [← hlookR0 p.1]
            exact hnone
          have hfk := introValue_none_fk hiv
          rw [alistLookup_eq_none_iff, List.map_reverse] at hfk
          rw [List.mem_reverse] at hfk
          exact hfk hin
        have hR0ne : R0 ≠ [] := by
          intro h
          rw [h] at hz
          simp [optLen] at hz
        obtain ⟨⟨k0, s0⟩, R0rest, hR0cons⟩ : ∃ p rest, R0 = p :: rest := by
          cases R0 with
          | nil => exact absurd rfl hR0ne
          | cons p rest => exact ⟨p, rest, rfl⟩
        have hlk0 : alistLookup R0 k0 = some s0 := by
          rw [hR0cons]
          exact alistLookup_head _ _ _
        have hk0nu : k0 ∉ u.map Prod.fst := by
          intro hk
          have hcl := hnon_u k0 hk
          rw [show optLookup (some R0) k0 = alistLookup R0 k0 from rfl] at hcl
          rw [hlk0] at hcl
          cases hcl
        have hwit0 : ∃ ka sa, introValue rt st2.phys.seqs ⟨cols0, fks0⟩ ka = some sa ∧
            ka ∉ u.map Prod.fst := by
          refine ⟨k0, s0, ?_, hk0nu⟩
          rw [hphys1, ← hlookR0 k0]
          exact hlk0
        have hscan0 : ∀ p ∈ cols0, ∃ ft, mapNativeType p.1 p.2 = .ok ft :=
          scanLoop_ok_all _ _ _ hscn
        exact extend_base_ready st2 stf rt d u (some R0) cols0 fks0 tbl1
          hcachef htbl1 hcols1 hfks1 hseqs1 hscan0 hnd_u hgood hmem_u hnon_u hfreshc
          hfreshf hconf hold0 hwit0

/-- C5 counterexample: the claim as stated fails with a stale Schema Cache entry. The physical note table has a text column a, but the cache holds a for note as Integer; a first Extend desiring a as Number reads only the stale cache entry, sees a numeric-compatible type, succeeds and issues no DDL, while the second identical Extend re-introspects the real text column and fails with a String/Number schema conflict. -/
theorem C5_counterexample :
    (Extend noFaults
      ⟨⟨[("note", ⟨[("a", "text")], []⟩)], []⟩,
       [("note", [("a", ⟨.integer, ""⟩)])], []⟩ "note" [("a", ⟨.number, ""⟩)]).1
      = .ok () ∧
    (Extend noFaults
      (Extend noFaults
        ⟨⟨[("note", ⟨[("a", "text")], []⟩)], []⟩,
         [("note", [("a", ⟨.integer, ""⟩)])], []⟩ "note" [("a", ⟨.number, ""⟩)]).2
      "note" [("a", ⟨.number, ""⟩)]).1
      = .error (.conflictingSchema ⟨.string, ""⟩ ⟨.number, ""⟩) := by
  decide

theorem C5_witness :
    (Extend noFaults
      (Extend noFaults ⟨⟨[("collection", ⟨[("_id", "text")], []⟩)], []⟩, [], []⟩
        "collection"
        [("title", ⟨.string, ""⟩), ("collection", ⟨.reference, "collection"⟩),
         ("seat", ⟨.sequence, ""⟩)]).2
      "collection"
      [("title", ⟨.string, ""⟩), ("collection", ⟨.reference, "collection"⟩),
       ("seat", ⟨.sequence, ""⟩)]).1 = .ok () ∧
    ((Extend noFaults
      (Extend noFaults ⟨⟨[("collection", ⟨[("_id", "text")], []⟩)], []⟩, [], []⟩
        "collection"
        [("title", ⟨.string, ""⟩), ("collection", ⟨.reference, "collection"⟩),
         ("seat", ⟨.sequence, ""⟩)]).2
      "collection"
      [("title", ⟨.string, ""⟩), ("collection", ⟨.reference, "collection"⟩),
       ("seat", ⟨.sequence, ""⟩)]).2).trace
      = ((Extend noFaults ⟨⟨[("collection", ⟨[("_id", "text")], []⟩)], []⟩, [], []⟩
        "collection"
        [("title", ⟨.string, ""⟩), ("collection", ⟨.reference, "collection"⟩),
         ("seat", ⟨.sequence, ""⟩)]).2).trace :=
  C5_extend_idempotent ⟨⟨[("collection", ⟨[("_id", "text")], []⟩)], []⟩, [], []⟩
    "collection"
    [("title", ⟨.string, ""⟩), ("collection", ⟨.reference, "collection"⟩),
     ("seat", ⟨.sequence, ""⟩)]
    (by decide) (by decide) (by decide) (by decide)
